import Mathlib

/-!
Verification development for the maintenance-document ingestion pipeline:
a shallow embedding of the extraction / normalization / anomaly-detection
core (backend/services, backend/llm, backend/ingestion) together with
proofs about it.  Python strings are modelled as Lean `String`s (lists of
characters), Python `None`-or-value record fields as the sum type `Value`,
Python `float`/`Decimal` numerics as `Rat`, and calendar dates as a
year/month/day triple.
-/

namespace Maint

/-- Python whitespace characters (`str.strip`, `str.split`, regex `\s`),
ASCII portion. -/
def isPySpace (c : Char) : Bool :=
  c = ' ' || c = '\t' || c = '\n' || c = '\r' || c = '\x0b' || c = '\x0c'

/-- Model of Python `str.lower` on a character list (ASCII case mapping). -/
def lowerL (l : List Char) : List Char := l.map Char.toLower

/-- Model of Python `str.strip()` on a character list. -/
def pyStripL (l : List Char) : List Char :=
  ((l.dropWhile isPySpace).reverse.dropWhile isPySpace).reverse

/-- Model of Python `str.strip()` on strings. -/
def pyStrip (s : String) : String := ⟨pyStripL s.data⟩

/-- Model of Python `str.lower()` on strings. -/
def pyLower (s : String) : String := ⟨lowerL s.data⟩

/-- Helper for `str.split()`: accumulates the current word (reversed). -/
def wordsAux : List Char → List Char → List (List Char)
  | [], acc => if acc.isEmpty then [] else [acc.reverse]
  | c :: cs, acc =>
    if isPySpace c then
      if acc.isEmpty then wordsAux cs [] else acc.reverse :: wordsAux cs []
    else wordsAux cs (c :: acc)

/-- Model of Python `str.split()` (split on whitespace runs, no empties). -/
def wordsL (l : List Char) : List (List Char) := wordsAux l []

/-- Model of Python `' '.join(words)`. -/
def joinWordsL (ws : List (List Char)) : List Char := List.intercalate [' '] ws

/-- `needle in hay` for character lists (Python substring containment). -/
def containsL : List Char → List Char → Bool
  | hay, needle =>
    match hay with
    | [] => needle.isEmpty
    | _ :: t => needle.isPrefixOf hay || containsL t needle

/-- Python substring containment on strings (`needle in hay`). -/
def pyContains (hay needle : String) : Bool := containsL hay.data needle.data

/-- Digits of a natural number list of decimal digit values. -/
def natDigits (n : Nat) : List Nat := (Nat.toDigits 10 n).map (fun c => c.toNat - 48)

/-- Parse a run of decimal digits to a natural number (`none` if empty). -/
def digitsToNat (l : List Char) : Option Nat :=
  if l.isEmpty || l.any (fun c => !c.isDigit) then none
  else some (l.foldl (fun n c => n * 10 + (c.toNat - 48)) 0)

/-- Model of Python `float(s)` on the decimal fragment: optional surrounding
whitespace, optional sign, `digits[.digits]` or `.digits`, optional exponent.
(`inf`/`nan`/underscore grouping are outside this model; no claim depends on
them.)  Returns the exact rational value. -/
def pyFloat (s : String) : Option Rat :=
  let l := pyStripL s.data
  let (sgn, l) := match l with
    | '-' :: t => ((-1 : Int), t)
    | '+' :: t => ((1 : Int), t)
    | t => ((1 : Int), t)
  let intPart := l.takeWhile Char.isDigit
  let l1 := l.drop intPart.length
  let (fracPart, l2) := match l1 with
    | '.' :: t => (t.takeWhile Char.isDigit, t.drop (t.takeWhile Char.isDigit).length)
    | t => ([], t)
  if intPart.isEmpty && fracPart.isEmpty then none
  else
    let (expVal, l3) : Option Int × List Char := match l2 with
      | 'e' :: t | 'E' :: t =>
        let (esgn, t1) := match t with
          | '-' :: u => ((-1 : Int), u)
          | '+' :: u => ((1 : Int), u)
          | u => ((1 : Int), u)
        let eDigits := t1.takeWhile Char.isDigit
        if eDigits.isEmpty then (none, t)
        else (some (esgn * ((digitsToNat eDigits).getD 0 : Nat)), t1.drop eDigits.length)
      | t => (some 0, t)
    match expVal with
    | none => none
    | some e =>
      if !l3.isEmpty then none
      else
        let mant : Int := sgn * (((digitsToNat (intPart ++ fracPart)).getD 0 : Nat) : Int)
        -- value = mant * 10 ^ (e - fracPart.length), kept in `mkRat` form
        let e' : Int := e - fracPart.length
        some (if e' ≥ 0 then ((mant * ((10 ^ e'.toNat : Nat) : Int) : Int) : Rat)
              else mkRat mant (10 ^ (-e').toNat))

/-- Model of Python `decimal.Decimal(s)` restricted to the strings that can
reach it in `normalize_cost` (only characters `0-9`, `.`, `-` survive the
preceding `re.sub`): optional leading `-`, at least one digit, at most one
`.`, nothing else. -/
def pyDecimal (s : String) : Option Rat :=
  let l := s.data
  let (sgn, l) := match l with
    | '-' :: t => ((-1 : Int), t)
    | t => ((1 : Int), t)
  let intPart := l.takeWhile Char.isDigit
  let l1 := l.drop intPart.length
  let (fracPart, l2) := match l1 with
    | '.' :: t => (t.takeWhile Char.isDigit, t.drop (t.takeWhile Char.isDigit).length)
    | t => ([], t)
  if intPart.isEmpty && fracPart.isEmpty then none
  else if !l2.isEmpty then none
  else
    let mant : Int := sgn * (((digitsToNat (intPart ++ fracPart)).getD 0 : Nat) : Int)
    some (mkRat mant (10 ^ fracPart.length))

/-- `num / den` rounded to the nearest natural, ties to even (the rounding
used by Python's fixed-point string formatting). -/
def divHalfEven (num den : Nat) : Nat :=
  let q := num / den
  let r := num % den
  if 2 * r < den then q
  else if 2 * r > den then q + 1
  else if q % 2 = 0 then q else q + 1

/-- Insert thousands separators into a digit list (most significant first). -/
def groupThousands (ds : List Char) : List Char :=
  let rec go : List Char → List Char  -- operates on the reversed digit list
    | a :: b :: c :: d :: rest => a :: b :: c :: ',' :: go (d :: rest)
    | l => l
  (go ds.reverse).reverse

/-- Model of Python's `f"{x:,.2f}"` formatting applied to a cost value
(computed on `|q|` via the numerator/denominator to stay kernel-reducible). -/
def formatMoney (q : Rat) : String :=
  let cents := divHalfEven (q.num.natAbs * 100) q.den
  let intDigits := (Nat.toDigits 10 (cents / 100))
  let fracDigits := (Nat.toDigits 10 (cents % 100))
  let frac := if fracDigits.length = 1 then '0' :: fracDigits else fracDigits
  ⟨(if q < 0 then ['-'] else []) ++ groupThousands intDigits ++ '.' :: frac⟩

/-! ### Calendar dates -/

/-- A calendar date (proleptic Gregorian), as produced by Python `date`. -/
structure PDate where
  year : Nat
  month : Nat
  day : Nat
deriving DecidableEq, Repr

/-- Gregorian leap year. -/
def isLeap (y : Nat) : Bool := y % 4 = 0 && (y % 100 ≠ 0 || y % 400 = 0)

/-- Days in a month. -/
def daysInMonth (y m : Nat) : Nat :=
  if m = 2 then (if isLeap y then 29 else 28)
  else if m = 4 || m = 6 || m = 9 || m = 11 then 30
  else 31

/-- Valid calendar date (what `datetime.date` accepts). -/
def validDate (y m d : Nat) : Bool :=
  1 ≤ y && y ≤ 9999 && 1 ≤ m && m ≤ 12 && 1 ≤ d && d ≤ daysInMonth y m

/-- Day number of a date (days-from-civil), so that differences give the
`timedelta` day counts and the ordering agrees with Python `date` ordering. -/
def dateOrdinal (dt : PDate) : Int :=
  let y : Int := if dt.month ≤ 2 then (dt.year : Int) - 1 else (dt.year : Int)
  let era : Int := y / 400
  let yoe : Int := y - era * 400
  let mp : Int := if dt.month > 2 then (dt.month : Int) - 3 else (dt.month : Int) + 9
  let doy : Int := (153 * mp + 2) / 5 + (dt.day : Int) - 1
  let doe : Int := yoe * 365 + yoe / 4 - yoe / 100 + doy
  era * 146097 + doe

/-- Zero-pad a digit string on the left to width `w`. -/
def padZeros (w : Nat) (ds : List Char) : List Char :=
  List.replicate (w - ds.length) '0' ++ ds

/-- Model of Python `date.isoformat()` / `strftime('%Y-%m-%d')`. -/
def isoDate (dt : PDate) : String :=
  ⟨padZeros 4 (Nat.toDigits 10 dt.year) ++ '-' ::
    padZeros 2 (Nat.toDigits 10 dt.month) ++ '-' ::
    padZeros 2 (Nat.toDigits 10 dt.day)⟩

/-- Model of Python `date.fromisoformat` (pre-3.11 form: exactly
`YYYY-MM-DD`, then calendar validity). -/
def fromIso (s : String) : Option PDate :=
  match s.data with
  | [y1, y2, y3, y4, '-', m1, m2, '-', d1, d2] =>
    match digitsToNat [y1, y2, y3, y4], digitsToNat [m1, m2], digitsToNat [d1, d2] with
    | some y, some m, some d => if validDate y m d then some ⟨y, m, d⟩ else none
    | _, _, _ => none
  | _ => none

/-- Case-insensitive literal prefix match: `kw` is given lower-case; on
success returns the input after the prefix. -/
def dropKwCI : List Char → List Char → Option (List Char)
  | [], rest => some rest
  | _ :: _, [] => Option.none
  | k :: kt, c :: ct => if c.toLower = k then dropKwCI kt ct else Option.none

/-- Try a list of case-insensitive keywords in order (regex alternation). -/
def firstKwCI : List (List Char) → List Char → Option (List Char)
  | [], _ => Option.none
  | k :: ks, s => match dropKwCI k s with
    | some r => some r
    | Option.none => firstKwCI ks s

/-- Try keywords in order, also reporting the (1-based) index that matched. -/
def firstKwIdxCI : List (List Char) → Nat → List Char → Option (Nat × List Char)
  | [], _, _ => Option.none
  | k :: ks, i, s => match dropKwCI k s with
    | some r => some (i, r)
    | Option.none => firstKwIdxCI ks (i + 1) s

/-- Numeric field of `strptime`: at most `maxLen` digits, value in
`[lo, hi]` (the ranges CPython's generated regexes enforce). -/
def fieldNum (l : List Char) (maxLen lo hi : Nat) : Option Nat :=
  if l.isEmpty || l.length > maxLen then Option.none
  else match digitsToNat l with
    | some v => if lo ≤ v && v ≤ hi then some v else Option.none
    | Option.none => Option.none

/-- Construct a date, enforcing calendar validity as `datetime.date` does. -/
def mkDate (y m d : Nat) : Option PDate :=
  if validDate y m d then some ⟨y, m, d⟩ else Option.none

/-- The `strptime` format strings appearing in the sources. -/
inductive DateFmt
  | ymdDash | mdySlash | dmySlash | ymdSlash | mdyDash | dmyDash
  | ymdCompact | monthFull | monthAbbr
deriving DecidableEq, Repr

def monthNamesFull : List (List Char) :=
  ["january".data, "february".data, "march".data, "april".data, "may".data,
   "june".data, "july".data, "august".data, "september".data, "october".data,
   "november".data, "december".data]

def monthNamesAbbr : List (List Char) :=
  ["jan".data, "feb".data, "mar".data, "apr".data, "may".data, "jun".data,
   "jul".data, "aug".data, "sep".data, "oct".data, "nov".data, "dec".data]

/-- Parse a three-part separated date (`%Y-%m-%d` and friends):
`%Y` is exactly four digits, `%m`/`%d` one or two digits in range. -/
def parseSep3 (s : List Char) (sep : Char) (yFirst dayBeforeMonth : Bool) :
    Option PDate :=
  match s.splitOn sep with
  | [a, b, c] =>
    let (ys, p1, p2) := if yFirst then (a, b, c) else (c, a, b)
    let (ms, ds) := if dayBeforeMonth then (p2, p1) else (p1, p2)
    match fieldNum ys 4 0 9999, fieldNum ms 2 1 12, fieldNum ds 2 1 31 with
    | some y, some m, some d =>
      if ys.length = 4 then mkDate y m d else Option.none
    | _, _, _ => Option.none
  | _ => Option.none

/-- Parse `"Month d, YYYY"` (`%B %d, %Y` / `%b %d, %Y`): the month name is
matched case-insensitively, the literal spaces match whitespace runs. -/
def parseMonthName (names : List (List Char)) (s : List Char) : Option PDate :=
  match firstKwIdxCI names 1 s with
  | Option.none => Option.none
  | some (m, r1) =>
    let ws1 := r1.takeWhile isPySpace
    if ws1.isEmpty then Option.none
    else
      let r2 := r1.drop ws1.length
      let dayDs := r2.takeWhile Char.isDigit
      match fieldNum dayDs 2 1 31 with
      | Option.none => Option.none
      | some d =>
        match r2.drop dayDs.length with
        | ',' :: r3 =>
          let ws2 := r3.takeWhile isPySpace
          if ws2.isEmpty then Option.none
          else
            let r4 := r3.drop ws2.length
            let yDs := r4.takeWhile Char.isDigit
            if yDs.length = 4 && (r4.drop 4).isEmpty then
              match digitsToNat yDs with
              | some y => mkDate y m d
              | Option.none => Option.none
            else Option.none
        | _ => Option.none

/-- Model of `datetime.strptime(s, fmt).date()` for the formats used by the
sources.  (`%Y%m%d` is modelled on its unambiguous 8-digit form.) -/
def tryDateFmt (f : DateFmt) (s : List Char) : Option PDate :=
  match f with
  | .ymdDash => parseSep3 s '-' true false
  | .mdySlash => parseSep3 s '/' false false
  | .dmySlash => parseSep3 s '/' false true
  | .ymdSlash => parseSep3 s '/' true false
  | .mdyDash => parseSep3 s '-' false false
  | .dmyDash => parseSep3 s '-' false true
  | .ymdCompact =>
    if s.length = 8 && s.all Char.isDigit then
      match digitsToNat (s.take 4), fieldNum (s.drop 4 |>.take 2) 2 1 12,
            fieldNum (s.drop 6) 2 1 31 with
      | some y, some m, some d => mkDate y m d
      | _, _, _ => Option.none
    else Option.none
  | .monthFull => parseMonthName monthNamesFull s
  | .monthAbbr => parseMonthName monthNamesAbbr s

/-- First format that parses wins (the source's `for fmt in formats` loop
with `try/except ValueError: continue`). -/
def strptimeFirst (fmts : List DateFmt) (s : String) : Option PDate :=
  match fmts with
  | [] => Option.none
  | f :: fs => match tryDateFmt f s.data with
    | some d => some d
    | Option.none => strptimeFirst fs s

/-! ### Loosely-typed record values

`Value` models the Python values that flow through the candidate-record
dictionaries: `None`, strings, numbers (`int`/`float`/`Decimal`, modelled
exactly as rationals), and `datetime.date` objects. -/

inductive Value where
  | none
  | str (s : String)
  | num (q : Rat)
  | date (d : PDate)
deriving DecidableEq, Repr

/-- Python `str(n)` for numbers.  Integral values render exactly; the
rendering of non-integral values is a model choice no theorem relies on. -/
def numToStr (q : Rat) : String :=
  let sgn : List Char := if q.num < 0 then ['-'] else []
  if q.den = 1 then ⟨sgn ++ Nat.toDigits 10 q.num.natAbs⟩
  else ⟨sgn ++ Nat.toDigits 10 q.num.natAbs ++ '/' :: Nat.toDigits 10 q.den⟩

/-- Python `str(value)`. -/
def pyStr : Value → String
  | .none => "None"
  | .str s => s
  | .num q => numToStr q
  | .date d => isoDate d

/-- Python truthiness (`bool(value)`) on the modelled values. -/
def truthy : Value → Bool
  | .none => false
  | .str s => !s.isEmpty
  | .num q => q ≠ 0
  | .date _ => true

/-- A candidate / normalized maintenance record: field name → loose value.
Fields follow `models.ExtractedRecord` / the extractor dictionaries. -/
structure Rec where
  component : Value
  system : Value
  failure_type : Value
  maint_action : Value
  priority : Value
  status : Value
  start_date : Value
  end_date : Value
  cost_estimate : Value
  summary_notes : Value
deriving DecidableEq, Repr

/-- The all-`None` record (a dictionary with no interesting keys). -/
def emptyRec : Rec :=
  ⟨.none, .none, .none, .none, .none, .none, .none, .none, .none, .none⟩

/-! ### services/normalizer.py — DataNormalizer -/

/-- The null-like tokens of `normalize_string`. -/
def nullLikeL : List (List Char) :=
  ["null".data, "none".data, "n/a".data, "na".data, "".data]

/-- The string body of `DataNormalizer.normalize_string`:
`s = str(value).strip()`, the null-like filter, then
`' '.join(s.split())` with the final emptiness guard. -/
def normalizeStringS (s0 : String) : Value :=
  let s := pyStripL s0.data
  if lowerL s ∈ nullLikeL then .none
  else
    let s2 := joinWordsL (wordsL s)
    if s2.isEmpty then .none else .str ⟨s2⟩

/-- `DataNormalizer.normalize_string`. -/
def normalizeString (v : Value) : Value :=
  match v with
  | .none => .none
  | _ => normalizeStringS (pyStr v)

/-- `DataNormalizer.PRIORITY_MAP`. -/
def priorityMap : List (String × String) :=
  [("1", "high"), ("p1", "high"), ("critical", "high"), ("urgent", "high"),
   ("2", "medium"), ("p2", "medium"), ("moderate", "medium"), ("normal", "medium"),
   ("3", "low"), ("p3", "low"), ("minor", "low"), ("routine", "low")]

/-- `DataNormalizer.STATUS_MAP`. -/
def statusMap : List (String × String) :=
  [("new", "open"), ("pending", "open"), ("created", "open"),
   ("started", "in-progress"), ("working", "in-progress"), ("active", "in-progress"),
   ("waiting", "awaiting-parts"), ("hold", "awaiting-parts"), ("blocked", "awaiting-parts"),
   ("done", "complete"), ("finished", "complete"), ("closed", "complete")]

/-- Dictionary lookup on an association list. -/
def lookupStr (m : List (String × String)) (k : String) : Option String :=
  (m.find? (fun p => p.1 == k)).map (fun p => p.2)

/-- The canonicalisation `str(value).lower().strip()`. -/
def lowerStrip (s : String) : String := ⟨pyStripL (lowerL s.data)⟩

/-- The body of `DataNormalizer.normalize_priority` over the canonicalised
token `s = str(value).lower().strip()`. -/
def normalizePriorityCore (s : String) : Value :=
  if s = "high" ∨ s = "medium" ∨ s = "low" then .str s
  else
    -- dictionary hit, else the keyword-contains heuristic chain
    ((lookupStr priorityMap s).map Value.str).getD
      (if ["high", "critical", "urgent", "emergency"].any (fun k => pyContains s k) then
        .str "high"
      else if ["medium", "moderate", "normal"].any (fun k => pyContains s k) then
        .str "medium"
      else if ["low", "minor", "routine"].any (fun k => pyContains s k) then
        .str "low"
      else .none)

/-- `DataNormalizer.normalize_priority`. -/
def normalizePriority (v : Value) : Value :=
  match v with
  | .none => .none
  | _ => normalizePriorityCore (lowerStrip (pyStr v))

/-- The body of `DataNormalizer.normalize_status` over the canonicalised
token. -/
def normalizeStatusCore (s : String) : String :=
  if s ∈ (["open", "in-progress", "awaiting-parts", "complete"] : List String) then s
  else (lookupStr statusMap s).getD "open"

/-- `DataNormalizer.normalize_status` (total: always a canonical status). -/
def normalizeStatus (v : Value) : String :=
  match v with
  | .none => "open"
  | _ => normalizeStatusCore (lowerStrip (pyStr v))

/-- The format list of `DataNormalizer.normalize_date`. -/
def normalizerDateFmts : List DateFmt :=
  [.ymdDash, .mdySlash, .dmySlash, .ymdSlash, .mdyDash, .dmyDash,
   .ymdCompact, .monthFull, .monthAbbr]

/-- The string body of `DataNormalizer.normalize_date`. -/
def normalizeDateS (s0 : String) : Value :=
  let s := pyStripL s0.data
  if lowerL s ∈ (["null".data, "none".data, "n/a".data, "".data] : List (List Char)) then
    .none
  else match strptimeFirst normalizerDateFmts ⟨s⟩ with
  | some d => .date d
  | Option.none => .none

/-- `DataNormalizer.normalize_date`. -/
def normalizeDate (v : Value) : Value :=
  match v with
  | .none => .none
  | .date d => .date d
  | _ => normalizeDateS (pyStr v)

/-- The string body of `DataNormalizer.normalize_cost`: the null-like
filter, then `re.sub(r'[^\d.\-]', '', s)` and the `Decimal` parse. -/
def normalizeCostS (s0 : String) : Value :=
  if lowerL (pyStripL s0.data) ∈
      (["null".data, "none".data, "n/a".data, "".data] : List (List Char)) then
    .none
  else
    match pyDecimal ⟨(pyStripL s0.data).filter
        (fun c => c.isDigit || c = '.' || c = '-')⟩ with
    | some q => .num q
    | Option.none => .none

/-- `DataNormalizer.normalize_cost`.  Numeric input (`Decimal`/`int`/`float`)
passes through at its value; strings are stripped of every character outside
`[0-9.\-]` and parsed as `Decimal`. -/
def normalizeCost (v : Value) : Value :=
  match v with
  | .none => .none
  | .num q => .num q
  | _ => normalizeCostS (pyStr v)

/-- `DataNormalizer.normalize_record`.  (`record.get('status', 'open')`:
an absent status key and an explicit `None` both normalize to `"open"`,
so the dictionary default is behaviourally the identity here.) -/
def normalizeRecord (r : Rec) : Rec :=
  { component := normalizeString r.component
    system := normalizeString r.system
    failure_type := normalizeString r.failure_type
    maint_action := normalizeString r.maint_action
    priority := normalizePriority r.priority
    status := .str (normalizeStatus r.status)
    start_date := normalizeDate r.start_date
    end_date := normalizeDate r.end_date
    cost_estimate := normalizeCost r.cost_estimate
    summary_notes := normalizeString r.summary_notes }

/-! ### services/anomaly_detector.py — AnomalyDetector -/

/-- An anomaly descriptor dictionary, as built by `AnomalyDetector`. -/
structure Anomaly where
  anomaly_type : String
  severity : String
  description : String
  field_name : String
  field_value : Option String
  suggested_fix : String
deriving DecidableEq, Repr

/-- `AnomalyDetector._check_missing_fields`: component → high,
priority → medium, maint_action → medium. -/
def checkMissingFields (r : Rec) : List Anomaly :=
  (if !truthy r.component then
    [{ anomaly_type := "missing_field", severity := "high",
       description := "Component identifier is required",
       field_name := "component", field_value := Option.none,
       suggested_fix := "Review source document for component information" }]
   else []) ++
  (if !truthy r.priority then
    [{ anomaly_type := "missing_field", severity := "medium",
       description := "Priority level should be assigned",
       field_name := "priority", field_value := Option.none,
       suggested_fix := "Review source document for priority information" }]
   else []) ++
  (if !truthy r.maint_action then
    [{ anomaly_type := "missing_field", severity := "medium",
       description := "Maintenance action should be described",
       field_name := "maint_action", field_value := Option.none,
       suggested_fix := "Review source document for maint_action information" }]
   else [])

/-- The string/date coercion inside `_check_dates`: a `str` value goes
through `date.fromisoformat` (`None` on failure), a date passes through.
(Other value kinds do not reach the comparisons in the pipeline.) -/
def toDateForCheck : Value → Option PDate
  | .date d => some d
  | .str s => fromIso s
  | _ => Option.none

/-- `AnomalyDetector._check_dates`.  `today` is the detector's
`date.today()`, passed explicitly. -/
def checkDates (today : PDate) (r : Rec) : List Anomaly :=
  if truthy r.start_date && truthy r.end_date then
    match toDateForCheck r.start_date, toDateForCheck r.end_date with
    | some sd, some ed =>
      (if dateOrdinal ed < dateOrdinal sd then
        [{ anomaly_type := "date_inconsistency", severity := "high",
           description := "End date (" ++ isoDate ed ++ ") is before start date (" ++
             isoDate sd ++ ")",
           field_name := "end_date", field_value := some (isoDate ed),
           suggested_fix := "Verify and correct date sequence" }]
       else []) ++
      (let duration := dateOrdinal ed - dateOrdinal sd
       if duration > 365 then
        [{ anomaly_type := "date_inconsistency", severity := "low",
           description := "Maintenance duration (" ++ toString duration ++
             " days) exceeds 1 year",
           field_name := "duration", field_value := some (toString duration),
           suggested_fix := "Verify dates are correct or split into phases" }]
       else []) ++
      (if dateOrdinal ed > dateOrdinal today + 365 then
        [{ anomaly_type := "date_inconsistency", severity := "medium",
           description := "End date (" ++ isoDate ed ++
             ") is more than 1 year in the future",
           field_name := "end_date", field_value := some (isoDate ed),
           suggested_fix := "Verify projected completion date" }]
       else [])
    | _, _ => []
  else []

/-- The if/elif threshold chain of `_check_cost` on a parsed value. -/
def costThresholdAnomalies (q : Rat) : List Anomaly :=
  if q < 0 then
    [{ anomaly_type := "invalid_value", severity := "high",
       description := "Negative cost estimate: $" ++ formatMoney q,
       field_name := "cost_estimate", field_value := some (numToStr q),
       suggested_fix := "Cost cannot be negative" }]
  else if q > 1000000 then
    [{ anomaly_type := "extreme_value", severity := "high",
       description := "Extremely high cost estimate: $" ++ formatMoney q,
       field_name := "cost_estimate", field_value := some (numToStr q),
       suggested_fix := "Verify cost value or add justification" }]
  else if q > 100000 then
    [{ anomaly_type := "extreme_value", severity := "medium",
       description := "High cost estimate: $" ++ formatMoney q,
       field_name := "cost_estimate", field_value := some (numToStr q),
       suggested_fix := "Verify cost estimate is accurate" }]
  else []

/-- The `parse_error` anomaly of `_check_cost`'s exception handler. -/
def costParseErrorAnomaly (raw : String) : Anomaly :=
  { anomaly_type := "parse_error", severity := "low",
    description := "Could not parse cost value: " ++ raw,
    field_name := "cost_estimate", field_value := some raw,
    suggested_fix := "Convert to numeric format" }

/-- `AnomalyDetector._check_cost`: `float(cost)` succeeds on numbers and
parsable strings (threshold chain), and raises `ValueError`/`TypeError`
otherwise (`parse_error` anomaly). -/
def checkCost (r : Rec) : List Anomaly :=
  match r.cost_estimate with
  | .none => []
  | .num q => costThresholdAnomalies q
  | .str s =>
    match pyFloat s with
    | some q => costThresholdAnomalies q
    | Option.none => [costParseErrorAnomaly s]
  | .date d => [costParseErrorAnomaly (isoDate d)]

/-- `AnomalyDetector._check_priority`. -/
def checkPriority (r : Rec) : List Anomaly :=
  if truthy r.priority &&
     !(pyLower (pyStr r.priority) ∈ (["high", "medium", "low"] : List String)) then
    [{ anomaly_type := "invalid_value", severity := "low",
       description := "Non-standard priority value: " ++ pyStr r.priority,
       field_name := "priority", field_value := some (pyStr r.priority),
       suggested_fix := "Use standard priority: high, medium, or low" }]
  else []

/-- Field projection by name, for `_check_unknown_value`. -/
def fieldOf (r : Rec) (field : String) : Value :=
  if field = "component" then r.component
  else if field = "system" then r.system
  else .none

/-- `AnomalyDetector._check_unknown_value`. -/
def checkUnknownValue (r : Rec) (field : String) (known : List String) :
    List Anomaly :=
  let v := fieldOf r field
  if truthy v && !((known.map pyLower).contains (pyLower (pyStr v))) then
    [{ anomaly_type := "unknown_value", severity := "low",
       description := "Unknown " ++ field ++ ": " ++ pyStr v,
       field_name := field, field_value := some (pyStr v),
       suggested_fix := "Verify " ++ field ++ " name or add to known list" }]
  else []

/-- `AnomalyDetector.detect_anomalies`.  The known-value sets are optional
in the source (`None` and the empty set are both falsy, so an empty list
models both). -/
def detectAnomalies (today : PDate) (r : Rec)
    (knownComponents knownSystems : List String) : List Anomaly :=
  checkMissingFields r ++ checkDates today r ++ checkCost r ++ checkPriority r ++
  (if !knownComponents.isEmpty then checkUnknownValue r "component" knownComponents
   else []) ++
  (if !knownSystems.isEmpty then checkUnknownValue r "system" knownSystems
   else [])

/-! ### llm/client.py — LLMClient JSON handling

`json.loads` is modelled by an executable JSON reader over `JVal`
(numbers as exact rationals; `NaN`/`Infinity` extensions and surrogate
pairing are outside the model). -/

inductive JVal where
  | null
  | bool (b : Bool)
  | num (q : Rat)
  | str (s : String)
  | arr (l : List JVal)
  | obj (l : List (String × JVal))

/-- `{` (written via its code point to keep brace characters out of
literals). -/
def lbrace : Char := Char.ofNat 123

/-- `}` -/
def rbrace : Char := Char.ofNat 125

/-- A backtick character. -/
def btick : Char := Char.ofNat 96

/-- JSON whitespace. -/
def isJWs (c : Char) : Bool := c = ' ' || c = '\t' || c = '\n' || c = '\r'

def skipJWs (l : List Char) : List Char := l.dropWhile isJWs

/-- Hex digit value. -/
def hexVal (c : Char) : Option Nat :=
  if c.isDigit then some (c.toNat - 48)
  else if 'a' ≤ c && c ≤ 'f' then some (c.toNat - 87)
  else if 'A' ≤ c && c ≤ 'F' then some (c.toNat - 55)
  else Option.none

/-- JSON string body (after the opening quote): content and rest after the
closing quote. -/
def jStrBody : Nat → List Char → Option (List Char × List Char)
  | 0, _ => Option.none
  | fuel + 1, l =>
    match l with
    | [] => Option.none
    | '"' :: rest => some ([], rest)
    | '\\' :: e :: rest =>
      let esc : Option (Char × List Char) :=
        if e = '"' then some ('"', rest)
        else if e = '\\' then some ('\\', rest)
        else if e = '/' then some ('/', rest)
        else if e = 'b' then some ('\x08', rest)
        else if e = 'f' then some ('\x0c', rest)
        else if e = 'n' then some ('\n', rest)
        else if e = 'r' then some ('\r', rest)
        else if e = 't' then some ('\t', rest)
        else if e = 'u' then
          match rest with
          | a :: b :: c :: d :: r2 =>
            match hexVal a, hexVal b, hexVal c, hexVal d with
            | some x, some y, some z, some w =>
              some (Char.ofNat (((x * 16 + y) * 16 + z) * 16 + w), r2)
            | _, _, _, _ => Option.none
          | _ => Option.none
        else Option.none
      match esc with
      | some (c, r) => (jStrBody fuel r).map (fun p => (c :: p.1, p.2))
      | Option.none => Option.none
    | c :: rest =>
      if c.toNat < 32 then Option.none
      else (jStrBody fuel rest).map (fun p => (c :: p.1, p.2))

/-- JSON number grammar: `-?(0|[1-9]\d*)(\.\d+)?([eE][+-]?\d+)?`. -/
def jNum (l : List Char) : Option (Rat × List Char) :=
  let (sgn, l1) := match l with
    | '-' :: t => ((-1 : Int), t)
    | t => ((1 : Int), t)
  let intPart := l1.takeWhile Char.isDigit
  if intPart.isEmpty then Option.none
  else if intPart.length > 1 && intPart.head? = some '0' then Option.none
  else
    let l2 := l1.drop intPart.length
    let (fracPart, l3) := match l2 with
      | '.' :: t => (t.takeWhile Char.isDigit, t.drop (t.takeWhile Char.isDigit).length)
      | t => (([] : List Char), t)
    if l2.head? = some '.' && fracPart.isEmpty then Option.none
    else
      let (expOk, e, l4) : Bool × Int × List Char := match l3 with
        | 'e' :: t | 'E' :: t =>
          let (esgn, t1) := match t with
            | '-' :: u => ((-1 : Int), u)
            | '+' :: u => ((1 : Int), u)
            | u => ((1 : Int), u)
          let eDigits := t1.takeWhile Char.isDigit
          if eDigits.isEmpty then (false, 0, t)
          else (true, esgn * (((digitsToNat eDigits).getD 0 : Nat) : Int),
                t1.drop eDigits.length)
        | t => (true, 0, t)
      if !expOk then Option.none
      else
        let mant : Int := sgn * (((digitsToNat (intPart ++ fracPart)).getD 0 : Nat) : Int)
        let e' : Int := e - fracPart.length
        some ((if e' ≥ 0 then ((mant * ((10 ^ e'.toNat : Nat) : Int) : Int) : Rat)
               else mkRat mant (10 ^ (-e').toNat)), l4)

mutual

/-- JSON value (fuelled recursive descent). -/
def jValP : Nat → List Char → Option (JVal × List Char)
  | 0, _ => Option.none
  | fuel + 1, l =>
    match skipJWs l with
    | [] => Option.none
    | c :: rest =>
      if c = lbrace then
        match skipJWs rest with
        | d :: r2 =>
          if d = rbrace then some (.obj [], r2)
          else
            (jObjMembers fuel (skipJWs rest)).map (fun p => (JVal.obj p.1, p.2))
        | [] => Option.none
      else if c = '[' then
        match skipJWs rest with
        | ']' :: r2 => some (.arr [], r2)
        | _ => (jArrElems fuel rest).map (fun p => (JVal.arr p.1, p.2))
      else if c = '"' then
        (jStrBody fuel rest).map (fun p => (JVal.str ⟨p.1⟩, p.2))
      else if ['t', 'r', 'u', 'e'].isPrefixOf (c :: rest) then
        some (.bool true, (c :: rest).drop 4)
      else if ['f', 'a', 'l', 's', 'e'].isPrefixOf (c :: rest) then
        some (.bool false, (c :: rest).drop 5)
      else if ['n', 'u', 'l', 'l'].isPrefixOf (c :: rest) then
        some (.null, (c :: rest).drop 4)
      else
        (jNum (c :: rest)).map (fun p => (JVal.num p.1, p.2))

/-- Array elements after `[` (at least one element). -/
def jArrElems : Nat → List Char → Option (List JVal × List Char)
  | 0, _ => Option.none
  | fuel + 1, l =>
    match jValP fuel l with
    | Option.none => Option.none
    | some (v, r) =>
      match skipJWs r with
      | ',' :: r2 => (jArrElems fuel r2).map (fun p => (v :: p.1, p.2))
      | ']' :: r2 => some ([v], r2)
      | _ => Option.none

/-- Object members after `{` (at least one member). -/
def jObjMembers : Nat → List Char → Option (List (String × JVal) × List Char)
  | 0, _ => Option.none
  | fuel + 1, l =>
    match l with
    | '"' :: r0 =>
      match jStrBody fuel r0 with
      | Option.none => Option.none
      | some (k, r1) =>
        match skipJWs r1 with
        | ':' :: r2 =>
          match jValP fuel r2 with
          | Option.none => Option.none
          | some (v, r3) =>
            match skipJWs r3 with
            | ',' :: r4 =>
              (jObjMembers fuel (skipJWs r4)).map (fun p => ((⟨k⟩, v) :: p.1, p.2))
            | d :: r4 =>
              if d = rbrace then some ([(⟨k⟩, v)], r4) else Option.none
            | [] => Option.none
        | _ => Option.none
    | _ => Option.none

end

/-- Model of `json.loads` (strict: the whole input, modulo surrounding
whitespace, must be one JSON value). -/
def jloads (s : String) : Option JVal :=
  match jValP (2 * s.data.length + 8) s.data with
  | some (v, rest) => if (skipJWs rest).isEmpty then some v else Option.none
  | Option.none => Option.none

/-- Split a character list at the first occurrence of `needle`:
`(before, after-the-needle)`. -/
def breakAtSub : List Char → List Char → Option (List Char × List Char)
  | hay, needle =>
    if needle.isPrefixOf hay then some ([], hay.drop needle.length)
    else match hay with
      | [] => Option.none
      | c :: t => (breakAtSub t needle).map (fun p => (c :: p.1, p.2))

/-- The triple-backtick fence. -/
def fenceMarker : List Char := [btick, btick, btick]

/-- Model of ``re.search(r'```(?:json)?\s*([\s\S]*?)\s*```', text)``:
the captured group is the text between the first fence (with an optional
literal `json` tag) and the next fence, with surrounding whitespace
trimmed (the greedy leading `\s*` and the lazy body). -/
def extractFenced (s : String) : Option String :=
  match breakAtSub s.data fenceMarker with
  | Option.none => Option.none
  | some (_, afterOpen) =>
    let a2 := if "json".data.isPrefixOf afterOpen then afterOpen.drop 4 else afterOpen
    let a3 := a2.dropWhile isPySpace
    match breakAtSub a3 fenceMarker with
    | Option.none => Option.none
    | some (content, _) =>
      some ⟨(content.reverse.dropWhile isPySpace).reverse⟩

/-- Model of ``re.search(r'\[[\s\S]*\]', text)``: the span from the first
`[` to the last `]` of the text (the star is greedy), when the `]` comes
after the `[`. -/
def extractBracket (s : String) : Option String :=
  let pre := s.data.takeWhile (fun c => c ≠ '[')
  let rest := s.data.drop pre.length
  let tailAfter := (rest.reverse.takeWhile (fun c => c ≠ ']')).reverse
  let span := rest.take (rest.length - tailAfter.length)
  if span.length ≥ 2 then some ⟨span⟩ else Option.none

/-- Stage (i) of `_parse_json_response`: `json.loads` on the whole text;
a list is returned as is, a bare object is wrapped in a singleton list,
anything else falls through. -/
def jStage1 (s : String) : Option (List JVal) :=
  match jloads s with
  | some (.arr l) => some l
  | some (.obj o) => some [JVal.obj o]
  | _ => Option.none

/-- Stage (ii): the fenced code block, with the same list/object handling. -/
def jStage2 (s : String) : Option (List JVal) :=
  match extractFenced s with
  | some c =>
    match jloads c with
    | some (.arr l) => some l
    | some (.obj o) => some [JVal.obj o]
    | _ => Option.none
  | Option.none => Option.none

/-- Stage (iii): the first bracketed span; only a JSON array is accepted. -/
def jStage3 (s : String) : Option (List JVal) :=
  match extractBracket s with
  | some c =>
    match jloads c with
    | some (.arr l) => some l
    | _ => Option.none
  | Option.none => Option.none

/-- `LLMClient._parse_json_response`: the three parse attempts in order,
each `return`ing on success, `None` when all fail. -/
def parseJsonResponse (s : String) : Option (List JVal) :=
  match jStage1 s with
  | some r => some r
  | Option.none =>
    match jStage2 s with
    | some r => some r
    | Option.none => jStage3 s

/-- `LLMClient.extract_json`: an empty generation (the client's failure
mode) yields `None` without parsing. -/
def extractJson (response : String) : Option (List JVal) :=
  if response.isEmpty then Option.none else parseJsonResponse response

/-! ### llm/extractor.py — LLMExtractor

The regex fallback's patterns are hand-compiled to scanning functions with
Python `re` semantics (leftmost match, greedy classes with minimal
backtracking where classes overlap, `findall` resuming after each match). -/

/-- Class `[\s:]`. -/
def isWsColon (c : Char) : Bool := isPySpace c || c = ':'

/-- Class `[\s#:]`. -/
def isWsHashColon (c : Char) : Bool := isPySpace c || c = '#' || c = ':'

/-- Class `[A-Za-z0-9\-_\s]` (the group of the first component pattern). -/
def clsCompGroup (c : Char) : Bool := c.isAlphanum || c = '-' || c = '_' || isPySpace c

/-- Class `[A-Za-z0-9\-]`. -/
def clsIdent (c : Char) : Bool := c.isAlphanum || c = '-'

/-- Class `\w` (ASCII). -/
def isWordChar (c : Char) : Bool := c.isAlphanum || c = '_'

/-- Largest index of a character satisfying `p`. -/
def lastIdxSat (p : Char → Bool) (l : List Char) : Option Nat :=
  match l.reverse.findIdx? p with
  | some j => some (l.length - 1 - j)
  | Option.none => Option.none

/-- Pattern `(?:component|equipment|part|item)[\s:]+([A-Za-z0-9\-_\s]+)`
(IGNORECASE) at one position: keyword, then the greedy `[\s:]+` run, then
the group; when no group character follows the maximal run, the run
backtracks to its last whitespace character (whitespace is in both
classes, `:` only in the first). -/
def matchComp1 (cs : List Char) : Option (List Char × List Char) :=
  match firstKwCI ["component".data, "equipment".data, "part".data, "item".data] cs with
  | Option.none => Option.none
  | some rest =>
    let run1 := rest.takeWhile isWsColon
    if run1.isEmpty then Option.none
    else
      let after1 := rest.drop run1.length
      let run2 := after1.takeWhile clsCompGroup
      if !run2.isEmpty then some (run2, after1.drop run2.length)
      else match lastIdxSat isPySpace run1 with
        | some L =>
          if L ≥ 1 then
            match run1[L]? with
            | some c => some ([c], run1.drop (L + 1) ++ after1)
            | Option.none => Option.none
          else Option.none
        | Option.none => Option.none

/-- Pattern `([A-Z][A-Za-z0-9\-]+(?:-\d+)?)\s+(?:maintenance|repair|service)`
(IGNORECASE, so `[A-Z]` matches any letter; the optional `(?:-\d+)?` is
subsumed by the greedy `[A-Za-z0-9\-]+`). -/
def matchComp2 (cs : List Char) : Option (List Char × List Char) :=
  match cs with
  | [] => Option.none
  | c :: rest =>
    if !c.isAlpha then Option.none
    else
      let run := rest.takeWhile clsIdent
      if run.isEmpty then Option.none
      else
        let after := rest.drop run.length
        let ws := after.takeWhile isPySpace
        if ws.isEmpty then Option.none
        else
          match firstKwCI ["maintenance".data, "repair".data, "service".data]
              (after.drop ws.length) with
          | some rest2 => some (c :: run, rest2)
          | Option.none => Option.none

/-- The continuation `(.+?)(?:\n|$)` after a greedy separating run `run1`
(characters from `[\s:]` or `[\s:#]`): the lazy group is the non-newline
text up to the first newline or the end; when nothing follows the run, the
run backtracks to its last non-newline character. -/
def lazyLineTail (run1 after1 : List Char) : Option (List Char × List Char) :=
  if !after1.isEmpty then
    let g := after1.takeWhile (fun c => c ≠ '\n')
    let rest0 := after1.drop g.length
    some (g, match rest0 with
      | '\n' :: t => t
      | t => t)
  else
    match lastIdxSat (fun c => c ≠ '\n') run1 with
    | some L =>
      if L ≥ 1 then
        match run1[L]? with
        | some c =>
          some ([c], match run1.drop (L + 1) with
            | '\n' :: t => t
            | t => t)
        | Option.none => Option.none
      else Option.none
    | Option.none => Option.none

/-- Pattern `(?:action|repair|maintenance)[\s:]+(.+?)(?:\n|$)` (IGNORECASE). -/
def matchAct1 (cs : List Char) : Option (List Char × List Char) :=
  match firstKwCI ["action".data, "repair".data, "maintenance".data] cs with
  | Option.none => Option.none
  | some rest =>
    let run1 := rest.takeWhile isWsColon
    if run1.isEmpty then Option.none
    else lazyLineTail run1 (rest.drop run1.length)

/-- Pattern `(?:work order|wo)[\s#:]+\d+[\s:]+(.+?)(?:\n|$)` (IGNORECASE);
the `work order` alternative is tried before `wo` at each position. -/
def matchAct2 (cs : List Char) : Option (List Char × List Char) :=
  let cont : List Char → Option (List Char × List Char) := fun rest =>
    let run1 := rest.takeWhile isWsHashColon
    if run1.isEmpty then Option.none
    else
      let a1 := rest.drop run1.length
      let ds := a1.takeWhile Char.isDigit
      if ds.isEmpty then Option.none
      else
        let a2 := a1.drop ds.length
        let run2 := a2.takeWhile isWsColon
        if run2.isEmpty then Option.none
        else lazyLineTail run2 (a2.drop run2.length)
  match dropKwCI "work order".data cs with
  | some rest =>
    match cont rest with
    | some r => some r
    | Option.none => (dropKwCI "wo".data cs).bind cont
  | Option.none => (dropKwCI "wo".data cs).bind cont

/-- `re.findall` driver: leftmost matches, resuming after each match. -/
def scanAll (m : List Char → Option (List Char × List Char)) :
    Nat → List Char → List (List Char)
  | 0, _ => []
  | _ + 1, [] => []
  | fuel + 1, c :: t =>
    match m (c :: t) with
    | some (g, rest) => g :: scanAll m fuel rest
    | Option.none => scanAll m fuel t

/-- `re.search` driver: first position with a match. -/
def searchFirst (m : List Char → Option (List Char)) :
    Nat → List Char → Option (List Char)
  | 0, _ => Option.none
  | fuel + 1, l =>
    match m l with
    | some r => some r
    | Option.none =>
      match l with
      | [] => Option.none
      | _ :: t => searchFirst m fuel t

/-- Pattern `(?:priority|urgency)[\s:]+(\w+)` (IGNORECASE) at one position. -/
def matchPrio1 (cs : List Char) : Option (List Char) :=
  match firstKwCI ["priority".data, "urgency".data] cs with
  | Option.none => Option.none
  | some rest =>
    let run1 := rest.takeWhile isWsColon
    if run1.isEmpty then Option.none
    else
      let run2 := (rest.drop run1.length).takeWhile isWordChar
      if run2.isEmpty then Option.none else some run2

/-- The alternation of `\b(high|medium|low|critical|urgent)\s+priority`:
an alternative whose continuation fails falls through to the next.
Returns the lower-cased group. -/
def tryPrioKw : List (List Char) → List Char → Option (List Char)
  | [], _ => Option.none
  | k :: ks, l =>
    match dropKwCI k l with
    | some rest =>
      let ws := rest.takeWhile isPySpace
      match (if ws.isEmpty then Option.none
             else dropKwCI "priority".data (rest.drop ws.length)) with
      | some _ => some k
      | Option.none => tryPrioKw ks l
    | Option.none => tryPrioKw ks l

/-- `re.search` for the second priority pattern, tracking the previous
character for the `\b` word boundary. -/
def searchPrio2 : Nat → Option Char → List Char → Option (List Char)
  | 0, _, _ => Option.none
  | fuel + 1, prev, l =>
    let boundary := match prev with
      | some p => !isWordChar p
      | Option.none => true
    match (if boundary then
             tryPrioKw ["high".data, "medium".data, "low".data,
                        "critical".data, "urgent".data] l
           else Option.none) with
    | some k => some k
    | Option.none =>
      match l with
      | [] => Option.none
      | c :: t => searchPrio2 fuel (some c) t

/-- The `priority` loop of `_regex_extract`: first matching pattern wins,
value is `match.group(1).lower()`. -/
def findPriorityL (cs : List Char) : Option String :=
  match searchFirst matchPrio1 (cs.length + 1) cs with
  | some g => some (pyLower ⟨g⟩)
  | Option.none =>
    match searchPrio2 (cs.length + 1) Option.none cs with
    | some k => some ⟨k⟩
    | Option.none => Option.none

/-- Pattern `\$[\d,]+(?:\.\d{2})?` (case-sensitive) at one position;
returns the whole match (`group(0)`). -/
def matchCost1 (cs : List Char) : Option (List Char) :=
  match cs with
  | '$' :: rest =>
    let run := rest.takeWhile (fun c => c.isDigit || c = ',')
    if run.isEmpty then Option.none
    else
      let after := rest.drop run.length
      match after with
      | '.' :: d1 :: d2 :: _ =>
        if d1.isDigit && d2.isDigit then some ('$' :: run ++ ['.', d1, d2])
        else some ('$' :: run)
      | _ => some ('$' :: run)
  | _ => Option.none

/-- Pattern `(?:cost|estimate)[\s:]+\$?([\d,]+(?:\.\d{2})?)`
(case-sensitive) at one position; returns the whole match (`group(0)`,
which is what the source feeds to `float`). -/
def matchCost2 (cs : List Char) : Option (List Char) :=
  let cont : List Char → List Char → Option (List Char) := fun kw rest =>
    let run1 := rest.takeWhile isWsColon
    if run1.isEmpty then Option.none
    else
      let (dollar, a1) := match rest.drop run1.length with
        | '$' :: t => (['$'], t)
        | t => (([] : List Char), t)
      let run := a1.takeWhile (fun c => c.isDigit || c = ',')
      if run.isEmpty then Option.none
      else
        let after := a1.drop run.length
        let opt : List Char := match after with
          | '.' :: d1 :: d2 :: _ =>
            if d1.isDigit && d2.isDigit then ['.', d1, d2] else []
          | _ => []
        some (kw ++ run1 ++ dollar ++ run ++ opt)
  match (if "cost".data.isPrefixOf cs then cont "cost".data (cs.drop 4)
         else Option.none) with
  | some m => some m
  | Option.none =>
    if "estimate".data.isPrefixOf cs then cont "estimate".data (cs.drop 8)
    else Option.none

/-- `replace('$', '').replace(',', '')`. -/
def removeDollarComma (l : List Char) : List Char :=
  l.filter (fun c => c ≠ '$' && c ≠ ',')

/-- The `cost` loop of `_regex_extract`: the first pattern with a match
feeds `float(group(0) without '$' and ',')`; a `ValueError` leaves the
cost unset. -/
def findCostL (cs : List Char) : Option Rat :=
  match searchFirst matchCost1 (cs.length + 1) cs with
  | some m => pyFloat ⟨removeDollarComma m⟩
  | Option.none =>
    match searchFirst matchCost2 (cs.length + 1) cs with
    | some m => pyFloat ⟨removeDollarComma m⟩
    | Option.none => Option.none

/-- `LLMExtractor._regex_extract`. -/
def regexExtract (text : String) : List Rec :=
  let cs := text.data
  let fuel := cs.length + 1
  let components := scanAll matchComp1 fuel cs ++ scanAll matchComp2 fuel cs
  let actions := scanAll matchAct1 fuel cs ++ scanAll matchAct2 fuel cs
  if components.isEmpty && actions.isEmpty then []
  else
    let count := max (max components.length actions.length) 1
    let prio := findPriorityL cs
    let cost := findCostL cs
    (List.range (min count 10)).map fun i =>
      { emptyRec with
        component := match components[i]? with
          | some g => .str ⟨g⟩
          | Option.none => .none
        maint_action := match actions[i]? with
          | some g => .str ⟨g⟩
          | Option.none => .none
        priority := match prio with
          | some p => .str p
          | Option.none => .none
        cost_estimate := match cost with
          | some q => .num q
          | Option.none => .none }

/-- `LLMExtractor._clean_string`. -/
def cleanString (v : Value) : Value :=
  match v with
  | .none => .none
  | _ =>
    let s := pyStrip (pyStr v)
    if s.isEmpty || pyLower s = "null" then .none else .str s

/-- `LLMExtractor._normalize_priority` (note the raw passthrough of
unrecognised non-`null` tokens, unlike `DataNormalizer`). -/
def extNormalizePriority (v : Value) : Value :=
  if !truthy v then .none
  else
    let s := lowerStrip (pyStr v)
    if s ∈ (["high", "critical", "urgent", "1", "p1"] : List String) then .str "high"
    else if s ∈ (["medium", "moderate", "normal", "2", "p2"] : List String) then
      .str "medium"
    else if s ∈ (["low", "minor", "routine", "3", "p3"] : List String) then .str "low"
    else if s = "null" then .none
    else .str s

/-- The format list of `LLMExtractor._parse_date`. -/
def extDateFmts : List DateFmt := [.mdySlash, .dmySlash, .ymdSlash, .mdyDash]

/-- `re.match(r'^\d{4}-\d{2}-\d{2}$', s)`. -/
def isIsoShape (s : String) : Bool :=
  match s.data with
  | [a, b, c, d, '-', e, f, '-', g, h] => [a, b, c, d, e, f, g, h].all Char.isDigit
  | _ => false

/-- `LLMExtractor._parse_date` (returns an ISO string, not a date). -/
def extParseDate (v : Value) : Value :=
  if !truthy v then .none
  else
    let s := pyStrip (pyStr v)
    if pyLower s = "null" then .none
    else if isIsoShape s then .str s
    else match strptimeFirst extDateFmts s with
      | some d => .str (isoDate d)
      | Option.none => .none

/-- `LLMExtractor._parse_number`. -/
def extParseNumber (v : Value) : Value :=
  match v with
  | .none => .none
  | .num q => .num q
  | _ =>
    let s := pyStrip ⟨removeDollarComma (pyStr v).data⟩
    if pyLower s = "null" then .none
    else match pyFloat s with
      | some q => .num q
      | Option.none => .none

/-- `LLMExtractor._validate_records`: clean every field, keep a candidate
only when it has a component or a maintenance action. -/
def validateRecords (rs : List Rec) : List Rec :=
  rs.filterMap fun r =>
    let c : Rec :=
      { emptyRec with
        component := cleanString r.component
        system := cleanString r.system
        failure_type := cleanString r.failure_type
        maint_action := cleanString r.maint_action
        priority := extNormalizePriority r.priority
        start_date := extParseDate r.start_date
        end_date := extParseDate r.end_date
        cost_estimate := extParseNumber r.cost_estimate
        summary_notes := cleanString r.summary_notes }
    if truthy c.component || truthy c.maint_action then some c else Option.none

/-- `LLMExtractor.extract_records` (with `use_llm=True`): the AI path's
outcome is the oracle parameter `llmResult` (the value of
`await self._llm_extract(text)`); a truthy result is validated and
returned, anything else falls back to the regex extractor. -/
def extractRecords (llmResult : Option (List Rec)) (text : String) : List Rec :=
  match llmResult with
  | some rs => if !rs.isEmpty then validateRecords rs else regexExtract text
  | Option.none => regexExtract text

/-! ### services/pipeline.py — IngestionPipeline (record persistence) -/

/-- A persisted `ExtractedRecord` row: the normalized field values plus the
literal `status='open'`, the provenance tag and the confidence score. -/
structure PersistedRecord where
  fields : Rec
  extraction_method : String
  confidence_score : Rat
deriving DecidableEq, Repr

/-- The per-record persistence loop of `IngestionPipeline.process_document`
(steps 2–5): extraction, normalization, and the `ExtractedRecord`
construction with `extraction_method='llm' if records_data else 'regex'`. -/
def pipelineRecords (llmResult : Option (List Rec)) (text : String) :
    List PersistedRecord :=
  let rds := extractRecords llmResult text
  rds.map fun rd =>
    let n := normalizeRecord rd
    { fields := { n with status := .str "open" }
      extraction_method := if !rds.isEmpty then "llm" else "regex"
      confidence_score := mkRat 85 100 }

/-! ### ingestion/excel_extractor.py — text representation -/

/-- A parsed table: column names and rows of optional cell values
(`none` models a null/NaN cell).  The `iterrows` index is modelled as the
positional row number, matching the default `RangeIndex` that
`read_csv`/`read_excel` produce. -/
structure DFrame where
  cols : List String
  rows : List (List (Option String))
deriving DecidableEq, Repr

/-- One row as `"col: value | col: value"`, skipping null cells. -/
def renderRow (cols : List String) (row : List (Option String)) : String :=
  String.intercalate " | " ((cols.zip row).filterMap fun p =>
    match p.2 with
    | some v => some (p.1 ++ ": " ++ v)
    | Option.none => Option.none)

/-- The row loop of `extract_text_representation`: rows are rendered with a
1-based index; after the row with index 99 (the 100th), the summary line
`"... and N more rows"` is appended and the loop breaks. -/
def rowsLoop (cols : List String) :
    List (List (Option String)) → Nat → Nat → List String
  | [], _, _ => []
  | r :: rs, idx, n =>
    let line := "Row " ++ toString (idx + 1) ++ ": " ++ renderRow cols r
    if idx ≥ 99 then [line, "... and " ++ toString (n - 100) ++ " more rows"]
    else line :: rowsLoop cols rs (idx + 1) n

/-- `ExcelExtractor.extract_text_representation`, as its list of lines. -/
def textRepLines (df : DFrame) : List String :=
  ["Columns: " ++ String.intercalate ", " df.cols,
   "Total rows: " ++ toString df.rows.length, ""] ++
  rowsLoop df.cols df.rows 0 df.rows.length

/-- The final joined text. -/
def extractTextRepresentation (df : DFrame) : String :=
  String.intercalate "\n" (textRepLines df)

/-! ### ingestion/legacy_converter.py — row validation -/

/-- The Python exceptions relevant to the legacy converter's handlers. -/
inductive PyErr where
  | valueError
  | typeError
deriving DecidableEq, Repr

/-- The extracted legacy row data consulted by `_validate_record`
(string values from `_extract_record_data`, absent when the cell was
null or the column unmapped). -/
structure LegacyData where
  component : Option String
  priority : Option String
  start_date : Option String
  end_date : Option String
  cost_estimate : Option String
deriving DecidableEq, Repr

/-- A legacy validation issue dictionary. -/
structure LegacyIssue where
  type : String
  severity : String
  field : String
  description : String
  fix : String
deriving DecidableEq, Repr

/-- Python falsiness of an optional string (`if not value`). -/
def falsyS : Option String → Bool
  | Option.none => true
  | some s => s.isEmpty

/-- `re.sub(r'[$,\s]', '', str(value))`. -/
def legacyCleanCost (s : String) : String :=
  ⟨s.data.filter (fun c => !(c = '$' || c = ',' || isPySpace c))⟩

/-- `LegacyConverter._parse_cost`, with the potentially-raising `float`
call made explicit: its body catches every exception and returns `None`,
so the result is always `Except.ok`. -/
def legacyParseCostE (v : Option String) : Except PyErr (Option Rat) :=
  if falsyS v then Except.ok Option.none
  else
    let attempt : Except PyErr Rat :=
      match pyFloat (legacyCleanCost (v.getD "")) with
      | some q => Except.ok q
      | Option.none => Except.error PyErr.valueError
    match attempt with
    | Except.ok q => Except.ok (some q)
    | Except.error _ => Except.ok Option.none

/-- The format list of `LegacyConverter._parse_date`. -/
def legacyDateFmts : List DateFmt :=
  [.ymdDash, .mdySlash, .dmySlash, .ymdSlash, .mdyDash, .dmyDash]

/-- `LegacyConverter._parse_date`. -/
def legacyParseDate (v : Option String) : Option PDate :=
  if falsyS v then Option.none
  else strptimeFirst legacyDateFmts (pyStrip (v.getD ""))

/-- The `parse_error` issue of `_validate_record`'s cost handler. -/
def legacyCostParseIssue (raw : String) : LegacyIssue :=
  { type := "parse_error", severity := "low", field := "cost_estimate",
    description := "Could not parse cost value: " ++ raw,
    fix := "Convert to numeric format" }

/-- The cost section of `_validate_record`: `try: cost_val =
self._parse_cost(cost); if cost_val and cost_val > 1000000: ... except:
parse_error`. -/
def legacyCostIssues (cost : Option String) : List LegacyIssue :=
  if falsyS cost then []
  else
    match legacyParseCostE cost with
    | Except.ok costVal =>
      match costVal with
      | some q =>
        if q ≠ 0 && q > 1000000 then
          [{ type := "extreme_value", severity := "medium", field := "cost_estimate",
             description := "Unusually high cost estimate: $" ++ formatMoney q,
             fix := "Verify cost value is correct" }]
        else []
      | Option.none => []
    | Except.error _ => [legacyCostParseIssue (cost.getD "")]

/-- `LegacyConverter._validate_record`. -/
def legacyValidateRecord (data : LegacyData) : List LegacyIssue :=
  (if falsyS data.component then
    [{ type := "missing_field", severity := "high", field := "component",
       description := "Missing component/part identifier",
       fix := "Review source document for component name" }]
   else []) ++
  (if falsyS data.priority then
    [{ type := "missing_field", severity := "medium", field := "priority",
       description := "Missing priority level",
       fix := "Assign default priority based on maintenance type" }]
   else []) ++
  (if !falsyS data.start_date && !falsyS data.end_date then
    match legacyParseDate data.start_date, legacyParseDate data.end_date with
    | some sd, some ed =>
      if dateOrdinal sd > dateOrdinal ed then
        [{ type := "date_inconsistency", severity := "high",
           field := "start_date,end_date",
           description := "Start date (" ++ (data.start_date).getD "" ++
             ") is after end date (" ++ (data.end_date).getD "" ++ ")",
           fix := "Verify and correct date sequence" }]
      else []
    | _, _ => []
   else []) ++
  legacyCostIssues data.cost_estimate

/-! ## Helper lemmas -/

theorem mem_of_head?_eq_some {α : Type} {l : List α} {a : α}
    (h : l.head? = some a) : a ∈ l := by
  cases l with
  | nil => simp at h
  | cons x t => simp only [List.head?_cons, Option.some.injEq] at h; simp [h]

theorem mem_of_getLast?_eq_some {α : Type} {l : List α} {a : α}
    (h : l.getLast? = some a) : a ∈ l := by
  have h2 : l.reverse.head? = some a := by rw [List.head?_reverse]; exact h
  have := mem_of_head?_eq_some h2
  simpa using this

theorem dropWhile_eq_self_of_head {α : Type} (p : α → Bool) (l : List α)
    (h : ∀ a, l.head? = some a → p a = false) : l.dropWhile p = l := by
  cases l with
  | nil => rfl
  | cons x t =>
    have hx : p x = false := h x rfl
    simp [List.dropWhile_cons, hx]

theorem head?_dropWhile_false {α : Type} (p : α → Bool) (l : List α) {a : α}
    (h : (l.dropWhile p).head? = some a) : p a = false := by
  have := List.head?_dropWhile_not p l
  rw [h] at this
  exact this

theorem wordsAux_nil (acc : List Char) :
    wordsAux [] acc = if acc.isEmpty then [] else [acc.reverse] := rfl

theorem wordsAux_cons (c : Char) (l acc : List Char) :
    wordsAux (c :: l) acc =
      if isPySpace c then
        (if acc.isEmpty then wordsAux l [] else acc.reverse :: wordsAux l [])
      else wordsAux l (c :: acc) := rfl

/-- Every word produced by `wordsAux` is nonempty and whitespace-free. -/
theorem wordsAux_wf (l : List Char) :
    ∀ acc, (∀ c ∈ acc, isPySpace c = false) →
      ∀ w ∈ wordsAux l acc, w ≠ [] ∧ ∀ c ∈ w, isPySpace c = false := by
  induction l with
  | nil =>
    intro acc hacc w hw
    rw [wordsAux_nil] at hw
    by_cases he : acc.isEmpty
    · rw [if_pos he] at hw; simp at hw
    · rw [if_neg he] at hw
      have hw' : w = acc.reverse := by simpa using hw
      subst hw'
      constructor
      · simp only [ne_eq, List.reverse_eq_nil_iff]
        simpa [List.isEmpty_iff] using he
      · intro c hc
        exact hacc c (by simpa using hc)
  | cons x t ih =>
    intro acc hacc w hw
    rw [wordsAux_cons] at hw
    by_cases hx : isPySpace x
    · rw [if_pos hx] at hw
      by_cases he : acc.isEmpty
      · rw [if_pos he] at hw
        exact ih [] (by simp) w hw
      · rw [if_neg he] at hw
        rcases List.mem_cons.mp hw with hw' | hw'
        · subst hw'
          constructor
          · simp only [ne_eq, List.reverse_eq_nil_iff]
            simpa [List.isEmpty_iff] using he
          · intro c hc
            exact hacc c (by simpa using hc)
        · exact ih [] (by simp) w hw'
    · rw [if_neg hx] at hw
      refine ih (x :: acc) ?_ w hw
      intro c hc
      rcases List.mem_cons.mp hc with rfl | hc
      · simpa using hx
      · exact hacc c hc

/-- A whitespace-free chunk is absorbed into the accumulator. -/
theorem wordsAux_chunk (w : List Char) :
    ∀ l acc, (∀ c ∈ w, isPySpace c = false) →
      wordsAux (w ++ l) acc = wordsAux l (w.reverse ++ acc) := by
  induction w with
  | nil => intro l acc _; simp
  | cons x t ih =>
    intro l acc hw
    have hx : isPySpace x = false := hw x (by simp)
    rw [List.cons_append, wordsAux_cons, if_neg (by simp [hx])]
    rw [ih l (x :: acc) (fun c hc => hw c (by simp [hc]))]
    simp

/-- A whitespace character flushes a nonempty accumulator. -/
theorem wordsAux_flush (c : Char) (l acc : List Char)
    (hc : isPySpace c = true) (hacc : acc ≠ []) :
    wordsAux (c :: l) acc = acc.reverse :: wordsAux l [] := by
  have he : ¬ acc.isEmpty = true := by simpa [List.isEmpty_iff] using hacc
  rw [wordsAux_cons, if_pos hc, if_neg he]

theorem joinWordsL_nil : joinWordsL [] = [] := rfl

theorem joinWordsL_single (w : List Char) : joinWordsL [w] = w := by
  simp [joinWordsL, List.intercalate]

theorem joinWordsL_cons₂ (w x : List Char) (t : List (List Char)) :
    joinWordsL (w :: x :: t) = w ++ ' ' :: joinWordsL (x :: t) := by
  simp [joinWordsL, List.intercalate, List.intersperse]

/-- Splitting the join of well-formed words recovers the words. -/
theorem words_join (ws : List (List Char))
    (h : ∀ w ∈ ws, w ≠ [] ∧ ∀ c ∈ w, isPySpace c = false) :
    wordsL (joinWordsL ws) = ws := by
  induction ws with
  | nil => rfl
  | cons w t ih =>
    have hw := h w (by simp)
    cases t with
    | nil =>
      rw [joinWordsL_single]
      have hch : wordsAux (w ++ []) [] = wordsAux [] (w.reverse ++ []) :=
        wordsAux_chunk w [] [] hw.2
      rw [List.append_nil] at hch
      rw [wordsL, hch, wordsAux_nil]
      rw [if_neg (by simpa [List.isEmpty_iff, List.reverse_eq_nil_iff] using hw.1)]
      simp
    | cons x t' =>
      rw [joinWordsL_cons₂, wordsL, wordsAux_chunk w (' ' :: joinWordsL (x :: t')) [] hw.2]
      rw [List.append_nil, wordsAux_flush ' ' _ _ (by decide)
        (by simpa [List.reverse_eq_nil_iff] using hw.1)]
      rw [List.reverse_reverse]
      have := ih (fun u hu => h u (by simp [hu]))
      rw [wordsL] at this
      rw [this]

theorem joinWordsL_ne_nil (ws : List (List Char)) (hne : ws ≠ [])
    (h : ∀ w ∈ ws, w ≠ []) : joinWordsL ws ≠ [] := by
  cases ws with
  | nil => exact absurd rfl hne
  | cons w t =>
    cases t with
    | nil => rw [joinWordsL_single]; exact h w (by simp)
    | cons x t' =>
      rw [joinWordsL_cons₂]
      intro hcon
      have hw : w = [] ∧ (' ' :: joinWordsL (x :: t')) = [] := by
        simpa using List.append_eq_nil.mp hcon
      exact absurd hw.2 (by simp)

theorem head?_joinWordsL (ws : List (List Char)) (hne : ws ≠ [])
    (h : ∀ w ∈ ws, w ≠ [] ∧ ∀ c ∈ w, isPySpace c = false) :
    ∀ a, (joinWordsL ws).head? = some a → isPySpace a = false := by
  intro a ha
  cases ws with
  | nil => exact absurd rfl hne
  | cons w t =>
    have hw := h w (by simp)
    obtain ⟨c, w', rfl⟩ : ∃ c w', w = c :: w' := by
      cases w with
      | nil => exact absurd rfl hw.1
      | cons c w' => exact ⟨c, w', rfl⟩
    have hcw : isPySpace c = false := hw.2 c (by simp)
    cases t with
    | nil =>
      rw [joinWordsL_single] at ha
      simp only [List.head?_cons, Option.some.injEq] at ha
      subst ha; exact hcw
    | cons x t' =>
      rw [joinWordsL_cons₂] at ha
      simp only [List.cons_append, List.head?_cons, Option.some.injEq] at ha
      subst ha; exact hcw

theorem getLast?_joinWordsL (ws : List (List Char))
    (h : ∀ w ∈ ws, w ≠ [] ∧ ∀ c ∈ w, isPySpace c = false) :
    ∀ a, (joinWordsL ws).getLast? = some a → isPySpace a = false := by
  induction ws with
  | nil => intro a ha; simp [joinWordsL_nil] at ha
  | cons w t ih =>
    intro a ha
    cases t with
    | nil =>
      rw [joinWordsL_single] at ha
      exact (h w (by simp)).2 a (mem_of_getLast?_eq_some ha)
    | cons x t' =>
      rw [joinWordsL_cons₂] at ha
      have hne : (' ' :: joinWordsL (x :: t')) ≠ [] := by simp
      rw [List.getLast?_append_of_ne_nil _ hne] at ha
      have hj : joinWordsL (x :: t') ≠ [] :=
        joinWordsL_ne_nil _ (by simp) (fun u hu => (h u (by simp [hu])).1)
      have : (' ' :: joinWordsL (x :: t')).getLast? = (joinWordsL (x :: t')).getLast? := by
        have : ' ' :: joinWordsL (x :: t') = [' '] ++ joinWordsL (x :: t') := by simp
        rw [this, List.getLast?_append_of_ne_nil _ hj]
      rw [this] at ha
      exact ih (fun u hu => h u (by simp [hu])) a ha

/-- A list whose ends are not whitespace is fixed by `pyStripL`. -/
theorem pyStripL_eq_self (l : List Char)
    (hh : ∀ a, l.head? = some a → isPySpace a = false)
    (hl : ∀ a, l.getLast? = some a → isPySpace a = false) :
    pyStripL l = l := by
  unfold pyStripL
  rw [dropWhile_eq_self_of_head _ _ hh]
  rw [dropWhile_eq_self_of_head _ _ (by
    intro a ha
    rw [List.head?_reverse] at ha
    exact hl a ha)]
  exact List.reverse_reverse l

/-- `pyStripL` output starts with a non-whitespace character (if any). -/
theorem head?_pyStripL (l : List Char) :
    ∀ a, (pyStripL l).head? = some a → isPySpace a = false := by
  intro a ha
  unfold pyStripL at ha
  set A := l.dropWhile isPySpace with hA
  set B := A.reverse.dropWhile isPySpace with hB
  -- B.reverse is a prefix of A
  have hsplit : A = B.reverse ++ (A.reverse.takeWhile isPySpace).reverse := by
    have := List.takeWhile_append_dropWhile (p := isPySpace) (l := A.reverse)
    calc A = A.reverse.reverse := (List.reverse_reverse A).symm
    _ = (A.reverse.takeWhile isPySpace ++ A.reverse.dropWhile isPySpace).reverse := by
        rw [this]
    _ = B.reverse ++ (A.reverse.takeWhile isPySpace).reverse := by
        rw [List.reverse_append]
  cases hBr : B.reverse with
  | nil => rw [hBr] at ha; simp at ha
  | cons c t =>
    rw [hBr] at ha
    have hca : c = a := by simpa using ha
    subst hca
    have : A.head? = some c := by rw [hsplit, hBr]; simp
    exact head?_dropWhile_false _ _ this

/-- `pyStripL` output ends with a non-whitespace character (if any). -/
theorem getLast?_pyStripL (l : List Char) :
    ∀ a, (pyStripL l).getLast? = some a → isPySpace a = false := by
  intro a ha
  unfold pyStripL at ha
  rw [← List.head?_reverse, List.reverse_reverse] at ha
  exact head?_dropWhile_false _ _ ha

theorem pyStripL_idem (l : List Char) : pyStripL (pyStripL l) = pyStripL l :=
  pyStripL_eq_self _ (head?_pyStripL l) (getLast?_pyStripL l)

/-- `wordsAux` returns nothing only on all-whitespace input with empty
accumulator. -/
theorem wordsAux_eq_nil (l : List Char) :
    ∀ acc, wordsAux l acc = [] → (∀ c ∈ l, isPySpace c = true) ∧ acc = [] := by
  induction l with
  | nil =>
    intro acc h
    rw [wordsAux_nil] at h
    by_cases he : acc.isEmpty
    · exact ⟨by simp, by simpa [List.isEmpty_iff] using he⟩
    · rw [if_neg he] at h; simp at h
  | cons x t ih =>
    intro acc h
    rw [wordsAux_cons] at h
    by_cases hx : isPySpace x
    · rw [if_pos hx] at h
      by_cases he : acc.isEmpty
      · rw [if_pos he] at h
        have hih := ih [] h
        refine ⟨?_, by simpa [List.isEmpty_iff] using he⟩
        intro c hc
        rcases List.mem_cons.mp hc with rfl | hc
        · exact hx
        · exact hih.1 c hc
      · rw [if_neg he] at h; simp at h
    · rw [if_neg hx] at h
      have := ih (x :: acc) h
      exact absurd this.2 (by simp)

/-- A stripped string splitting into a single word is that word. -/
theorem single_word_of_stripped (l : List Char) (w : List Char)
    (hs : pyStripL l = l) (hw : wordsL l = [w]) : l = w := by
  have hsplit : l.takeWhile (fun c => !isPySpace c) ++
      l.dropWhile (fun c => !isPySpace c) = l :=
    List.takeWhile_append_dropWhile _ _
  have hlne : l ≠ [] := by
    intro hnil
    rw [hnil, wordsL, wordsAux_nil] at hw
    simp at hw
  obtain ⟨c, t, hl⟩ : ∃ c t, l = c :: t := by
    cases l with
    | nil => exact absurd rfl hlne
    | cons c t => exact ⟨c, t, rfl⟩
  · have hc : isPySpace c = false := by
      refine head?_pyStripL l c ?_
      rw [hs, hl]; rfl
    have hw0ne : l.takeWhile (fun c => !isPySpace c) ≠ [] := by
      rw [hl, List.takeWhile_cons, if_pos (by simp [hc])]
      simp
    have hw0sp : ∀ a ∈ l.takeWhile (fun c => !isPySpace c), isPySpace a = false := by
      intro a haw
      have hall := List.all_takeWhile (p := fun c => !isPySpace c) (l := l)
      have := List.all_eq_true.mp hall a haw
      simpa using this
    have hchunk : wordsL l =
        wordsAux (l.dropWhile (fun c => !isPySpace c))
          ((l.takeWhile (fun c => !isPySpace c)).reverse ++ []) := by
      rw [wordsL]
      conv_lhs => rw [← hsplit]
      exact wordsAux_chunk _ _ [] hw0sp
    cases hrestc : l.dropWhile (fun c => !isPySpace c) with
    | nil =>
      rw [hrestc, wordsAux_nil, List.append_nil,
        if_neg (by simpa [List.isEmpty_iff, List.reverse_eq_nil_iff] using hw0ne),
        List.reverse_reverse, hw] at hchunk
      have hww : w = l.takeWhile (fun c => !isPySpace c) := by
        simpa using hchunk
      rw [hww]
      conv_lhs => rw [← hsplit, hrestc]
      simp
    | cons d rest' =>
      have hd : isPySpace d = true := by
        have hhd : (l.dropWhile (fun c => !isPySpace c)).head? = some d := by
          rw [hrestc]; rfl
        have := head?_dropWhile_false (fun c => !isPySpace c) l hhd
        simpa using this
      rw [hrestc, List.append_nil,
        wordsAux_flush d rest' _ hd
          (by simpa [List.reverse_eq_nil_iff] using hw0ne),
        List.reverse_reverse, hw] at hchunk
      have hnil : wordsAux rest' [] = [] := by
        have := List.cons.inj hchunk
        exact this.2.symm
      have hrest'sp := (wordsAux_eq_nil rest' [] hnil).1
      -- but then the last character of l is whitespace, contradicting hs
      have hlast : ∀ a, l.getLast? = some a → isPySpace a = false := by
        intro a haa
        refine getLast?_pyStripL l a ?_
        rw [hs]; exact haa
      have hlg : l.getLast? = (d :: rest').getLast? := by
        conv_lhs => rw [← hsplit, hrestc]
        exact List.getLast?_append_of_ne_nil _ (by simp)
      obtain ⟨a, haa⟩ : ∃ a, (d :: rest').getLast? = some a := by
        cases h' : (d :: rest').getLast? with
        | none => simp [List.getLast?_eq_none_iff] at h'
        | some a => exact ⟨a, rfl⟩
      have hmem := mem_of_getLast?_eq_some haa
      have hasp : isPySpace a = true := by
        rcases List.mem_cons.mp hmem with rfl | hmem'
        · exact hd
        · exact hrest'sp a hmem'
      have hfin := hlast a (by rw [hlg]; exact haa)
      rw [hasp] at hfin
      exact absurd hfin (by simp)

/-- A successful `normalize_string` output is a fixed point. -/
theorem normalizeStringS_fix (s0 : String) (t : String)
    (h : normalizeStringS s0 = .str t) : normalizeStringS t = .str t := by
  by_cases h1 : lowerL (pyStripL s0.data) ∈ nullLikeL
  · unfold normalizeStringS at h
    rw [if_pos h1] at h
    exact absurd h (by simp)
  · by_cases h2 : (joinWordsL (wordsL (pyStripL s0.data))).isEmpty = true
    · unfold normalizeStringS at h
      rw [if_neg h1, if_pos h2] at h
      exact absurd h (by simp)
    · have ht : t = ⟨joinWordsL (wordsL (pyStripL s0.data))⟩ := by
        unfold normalizeStringS at h
        rw [if_neg h1, if_neg h2] at h
        exact (Value.str.inj h).symm
      have htd : t.data = joinWordsL (wordsL (pyStripL s0.data)) := by rw [ht]
      have hwf : ∀ w ∈ wordsL (pyStripL s0.data),
          w ≠ [] ∧ ∀ c ∈ w, isPySpace c = false :=
        wordsAux_wf _ [] (by simp)
      have hwsne : wordsL (pyStripL s0.data) ≠ [] := by
        intro hnil
        rw [hnil, joinWordsL_nil] at h2
        exact h2 rfl
      have hstrip : pyStripL t.data = t.data := by
        rw [htd]
        exact pyStripL_eq_self _
          (head?_joinWordsL _ hwsne hwf) (getLast?_joinWordsL _ hwf)
      have hwords : wordsL t.data = wordsL (pyStripL s0.data) := by
        rw [htd]
        exact words_join _ hwf
      have hnotnull : lowerL t.data ∉ nullLikeL := by
        intro hmem
        cases hws : wordsL (pyStripL s0.data) with
        | nil => exact hwsne hws
        | cons w tws =>
          cases tws with
          | nil =>
            have hl : pyStripL s0.data = w :=
              single_word_of_stripped _ w (pyStripL_idem s0.data) hws
            have : t.data = pyStripL s0.data := by
              rw [htd, hws, joinWordsL_single, hl]
            rw [this] at hmem
            exact h1 hmem
          | cons x tws' =>
            have hsp : ' ' ∈ t.data := by
              rw [htd, hws, joinWordsL_cons₂]
              simp
            have hsp2 : ' ' ∈ lowerL t.data :=
              List.mem_map.mpr ⟨' ', hsp, by decide⟩
            have : ∀ u ∈ nullLikeL, ' ' ∉ u := by decide
            exact this _ hmem hsp2
      unfold normalizeStringS
      rw [hstrip, if_neg hnotnull, hwords, if_neg h2, ht]

theorem normalizeStringS_shape (s0 : String) :
    normalizeStringS s0 = .none ∨ ∃ t, normalizeStringS s0 = .str t := by
  unfold normalizeStringS
  by_cases h1 : lowerL (pyStripL s0.data) ∈ nullLikeL
  · left; rw [if_pos h1]
  · rw [if_neg h1]
    by_cases h2 : (joinWordsL (wordsL (pyStripL s0.data))).isEmpty = true
    · left; rw [if_pos h2]
    · right; exact ⟨_, by rw [if_neg h2]⟩

theorem normalizeStringS_idem (s0 : String) :
    normalizeString (normalizeStringS s0) = normalizeStringS s0 := by
  rcases normalizeStringS_shape s0 with h | ⟨t, h⟩
  · rw [h]; rfl
  · rw [h]
    show normalizeStringS t = Value.str t
    exact normalizeStringS_fix s0 t h

/-- Idempotence of the string normalizer. -/
theorem normalizeString_idem (v : Value) :
    normalizeString (normalizeString v) = normalizeString v := by
  cases v with
  | none => rfl
  | str s => exact normalizeStringS_idem s
  | num q => exact normalizeStringS_idem (pyStr (.num q))
  | date d => exact normalizeStringS_idem (pyStr (.date d))

/-- Association-list lookup only returns stored values. -/
theorem lookupStr_mem (m : List (String × String)) (k t : String)
    (h : lookupStr m k = some t) : ∃ p ∈ m, p.2 = t := by
  unfold lookupStr at h
  cases hf : m.find? (fun p => p.1 == k) with
  | none => rw [hf] at h; simp at h
  | some p =>
    rw [hf] at h
    simp only [Option.map_some', Option.some.injEq] at h
    exact ⟨p, List.mem_of_find?_eq_some hf, h⟩

/-- The priority normalizer core only produces canonical values. -/
theorem normalizePriorityCore_shape (s : String) :
    normalizePriorityCore s = .none ∨ normalizePriorityCore s = .str "high" ∨
      normalizePriorityCore s = .str "medium" ∨
      normalizePriorityCore s = .str "low" := by
  unfold normalizePriorityCore
  by_cases h1 : s = "high" ∨ s = "medium" ∨ s = "low"
  · rw [if_pos h1]
    rcases h1 with rfl | rfl | rfl <;> simp
  · rw [if_neg h1]
    cases h2 : lookupStr priorityMap s with
    | some t =>
      obtain ⟨p, hpm, hpt⟩ := lookupStr_mem _ _ _ h2
      have htri : t = "high" ∨ t = "medium" ∨ t = "low" := by
        rw [← hpt]
        simp only [priorityMap, List.mem_cons, List.not_mem_nil, or_false] at hpm
        rcases hpm with rfl | rfl | rfl | rfl | rfl | rfl | rfl | rfl | rfl | rfl |
          rfl | rfl <;> simp
      rcases htri with rfl | rfl | rfl <;> simp [h2]
    | none =>
      by_cases h3 : (["high", "critical", "urgent", "emergency"].any
          (fun k => pyContains s k)) = true
      · simp [h2, h3]
      · by_cases h4 : (["medium", "moderate", "normal"].any
            (fun k => pyContains s k)) = true
        · simp [h2, h3, h4]
        · by_cases h5 : (["low", "minor", "routine"].any
              (fun k => pyContains s k)) = true
          · simp [h2, h3, h4, h5]
          · simp [h2, h3, h4, h5]

/-- The priority normalizer only produces canonical values. -/
theorem normalizePriority_shape (v : Value) :
    normalizePriority v = .none ∨ normalizePriority v = .str "high" ∨
      normalizePriority v = .str "medium" ∨ normalizePriority v = .str "low" := by
  cases v with
  | none => left; rfl
  | str s => exact normalizePriorityCore_shape (lowerStrip s)
  | num q => exact normalizePriorityCore_shape _
  | date d => exact normalizePriorityCore_shape _

/-- Idempotence of the priority normalizer. -/
theorem normalizePriority_idem (v : Value) :
    normalizePriority (normalizePriority v) = normalizePriority v := by
  rcases normalizePriority_shape v with h | h | h | h <;> rw [h] <;> decide

/-- The status normalizer core only produces canonical statuses. -/
theorem normalizeStatusCore_shape (s : String) :
    normalizeStatusCore s = "open" ∨ normalizeStatusCore s = "in-progress" ∨
      normalizeStatusCore s = "awaiting-parts" ∨
      normalizeStatusCore s = "complete" := by
  unfold normalizeStatusCore
  by_cases h1 : s ∈ (["open", "in-progress", "awaiting-parts", "complete"] : List String)
  · rw [if_pos h1]
    simp only [List.mem_cons, List.not_mem_nil, or_false] at h1
    rcases h1 with rfl | rfl | rfl | rfl <;> simp
  · rw [if_neg h1]
    cases h2 : lookupStr statusMap s with
    | some t =>
      obtain ⟨p, hpm, hpt⟩ := lookupStr_mem _ _ _ h2
      have htri : t = "open" ∨ t = "in-progress" ∨ t = "awaiting-parts" ∨
          t = "complete" := by
        rw [← hpt]
        simp only [statusMap, List.mem_cons, List.not_mem_nil, or_false] at hpm
        rcases hpm with rfl | rfl | rfl | rfl | rfl | rfl | rfl | rfl | rfl | rfl |
          rfl | rfl <;> simp
      rcases htri with rfl | rfl | rfl | rfl <;> simp [h2]
    | none => simp [h2]

/-- The status normalizer only produces canonical statuses. -/
theorem normalizeStatus_shape (v : Value) :
    normalizeStatus v = "open" ∨ normalizeStatus v = "in-progress" ∨
      normalizeStatus v = "awaiting-parts" ∨ normalizeStatus v = "complete" := by
  cases v with
  | none => left; rfl
  | str s => exact normalizeStatusCore_shape (lowerStrip s)
  | num q => exact normalizeStatusCore_shape _
  | date d => exact normalizeStatusCore_shape _

/-- Idempotence of the status normalizer (composed through `Value.str`). -/
theorem normalizeStatus_idem (v : Value) :
    normalizeStatus (.str (normalizeStatus v)) = normalizeStatus v := by
  rcases normalizeStatus_shape v with h | h | h | h <;> rw [h] <;> decide

/-- The date normalizer body only produces dates (or nothing). -/
theorem normalizeDateS_shape (s0 : String) :
    normalizeDateS s0 = .none ∨ ∃ d, normalizeDateS s0 = .date d := by
  unfold normalizeDateS
  by_cases h1 : lowerL (pyStripL s0.data) ∈
      (["null".data, "none".data, "n/a".data, "".data] : List (List Char))
  · rw [if_pos h1]; left; rfl
  · rw [if_neg h1]
    cases h2 : strptimeFirst normalizerDateFmts ⟨pyStripL s0.data⟩ with
    | some d => right; exact ⟨d, rfl⟩
    | none => left; rfl

/-- The date normalizer only produces dates (or nothing). -/
theorem normalizeDate_shape (v : Value) :
    normalizeDate v = .none ∨ ∃ d, normalizeDate v = .date d := by
  cases v with
  | none => left; rfl
  | date d => right; exact ⟨d, rfl⟩
  | str s => exact normalizeDateS_shape s
  | num q => exact normalizeDateS_shape (pyStr (.num q))

/-- Idempotence of the date normalizer. -/
theorem normalizeDate_idem (v : Value) :
    normalizeDate (normalizeDate v) = normalizeDate v := by
  rcases normalizeDate_shape v with h | ⟨d, h⟩ <;> rw [h] <;> rfl

/-- The cost normalizer body only produces numbers (or nothing). -/
theorem normalizeCostS_shape (s0 : String) :
    normalizeCostS s0 = .none ∨ ∃ q, normalizeCostS s0 = .num q := by
  unfold normalizeCostS
  by_cases h1 : lowerL (pyStripL s0.data) ∈
      (["null".data, "none".data, "n/a".data, "".data] : List (List Char))
  · rw [if_pos h1]; left; rfl
  · rw [if_neg h1]
    cases h2 : pyDecimal ⟨(pyStripL s0.data).filter
        (fun c => c.isDigit || c = '.' || c = '-')⟩ with
    | some q => right; exact ⟨q, rfl⟩
    | none => left; rfl

/-- The cost normalizer only produces numbers (or nothing). -/
theorem normalizeCost_shape (v : Value) :
    normalizeCost v = .none ∨ ∃ q, normalizeCost v = .num q := by
  cases v with
  | none => left; rfl
  | num q => right; exact ⟨q, rfl⟩
  | str s => exact normalizeCostS_shape s
  | date d => exact normalizeCostS_shape (pyStr (.date d))

/-- Idempotence of the cost normalizer. -/
theorem normalizeCost_idem (v : Value) :
    normalizeCost (normalizeCost v) = normalizeCost v := by
  rcases normalizeCost_shape v with h | ⟨q, h⟩ <;> rw [h] <;> rfl

/-- Idempotence of the record normalizer. -/
theorem normalizeRecord_idem (r : Rec) :
    normalizeRecord (normalizeRecord r) = normalizeRecord r := by
  simp only [normalizeRecord]
  simp only [normalizeString_idem, normalizePriority_idem, normalizeStatus_idem,
    normalizeDate_idem, normalizeCost_idem]

/-! ## Claim theorems -/

/-- C9: each field normalizer of `DataNormalizer` (string, priority,
status, date, cost) is idempotent — applying it to its own output yields
the same result as one application — and hence `normalize_record` applied
to its own output equals a single application. -/
theorem C9_normalizers_idempotent :
    (∀ v : Value, normalizeString (normalizeString v) = normalizeString v) ∧
    (∀ v : Value, normalizePriority (normalizePriority v) = normalizePriority v) ∧
    (∀ v : Value, normalizeStatus (.str (normalizeStatus v)) = normalizeStatus v) ∧
    (∀ v : Value, normalizeDate (normalizeDate v) = normalizeDate v) ∧
    (∀ v : Value, normalizeCost (normalizeCost v) = normalizeCost v) ∧
    (∀ r : Rec, normalizeRecord (normalizeRecord r) = normalizeRecord r) :=
  ⟨normalizeString_idem, normalizePriority_idem, normalizeStatus_idem,
    normalizeDate_idem, normalizeCost_idem, normalizeRecord_idem⟩

/-- C6: `normalize_priority` maps (case-insensitively, after trimming) the
aliases `{1, p1, critical, urgent}` to `high`, `{2, p2, moderate, normal}`
to `medium`, `{3, p3, minor, routine}` to `low`; it is the identity on
`{high, medium, low}`; its output is always canonical or absent (never the
raw unrecognised token); and when neither an alias nor a heuristic keyword
matches, the result is absent. -/
theorem C6_normalize_priority_mapping :
    (∀ s : String, lowerStrip s ∈ (["1", "p1", "critical", "urgent"] : List String) →
      normalizePriority (.str s) = .str "high") ∧
    (∀ s : String, lowerStrip s ∈ (["2", "p2", "moderate", "normal"] : List String) →
      normalizePriority (.str s) = .str "medium") ∧
    (∀ s : String, lowerStrip s ∈ (["3", "p3", "minor", "routine"] : List String) →
      normalizePriority (.str s) = .str "low") ∧
    (∀ s : String, lowerStrip s ∈ (["high", "medium", "low"] : List String) →
      normalizePriority (.str s) = .str (lowerStrip s)) ∧
    (∀ v : Value, normalizePriority v = .none ∨ normalizePriority v = .str "high" ∨
      normalizePriority v = .str "medium" ∨ normalizePriority v = .str "low") ∧
    (∀ s : String, lowerStrip s ∉ (["high", "medium", "low"] : List String) →
      lookupStr priorityMap (lowerStrip s) = Option.none →
      (["high", "critical", "urgent", "emergency"].any
        (fun k => pyContains (lowerStrip s) k)) = false →
      (["medium", "moderate", "normal"].any
        (fun k => pyContains (lowerStrip s) k)) = false →
      (["low", "minor", "routine"].any
        (fun k => pyContains (lowerStrip s) k)) = false →
      normalizePriority (.str s) = .none) := by
  refine ⟨?_, ?_, ?_, ?_, normalizePriority_shape, ?_⟩
  · intro s h
    show normalizePriorityCore (lowerStrip s) = _
    simp only [List.mem_cons, List.not_mem_nil, or_false] at h
    rcases h with h | h | h | h <;> rw [h] <;> decide
  · intro s h
    show normalizePriorityCore (lowerStrip s) = _
    simp only [List.mem_cons, List.not_mem_nil, or_false] at h
    rcases h with h | h | h | h <;> rw [h] <;> decide
  · intro s h
    show normalizePriorityCore (lowerStrip s) = _
    simp only [List.mem_cons, List.not_mem_nil, or_false] at h
    rcases h with h | h | h | h <;> rw [h] <;> decide
  · intro s h
    show normalizePriorityCore (lowerStrip s) = .str (lowerStrip s)
    simp only [List.mem_cons, List.not_mem_nil, or_false] at h
    rcases h with h | h | h <;> rw [h] <;> decide
  · intro s hmem hlook h3 h4 h5
    show normalizePriorityCore (lowerStrip s) = .none
    unfold normalizePriorityCore
    rw [if_neg (by simpa [List.mem_cons] using hmem), hlook]
    simp only [Option.map_none', Option.getD_none]
    rw [if_neg (by simp [h3]), if_neg (by simp [h4]), if_neg (by simp [h5])]

/-- C6 witness: the mapping theorem applied at concrete tokens. -/
theorem C6_normalize_priority_mapping_witness :
    normalizePriority (.str " P1 ") = .str "high" ∧
    normalizePriority (.str "Moderate") = .str "medium" ∧
    normalizePriority (.str "HIGH") = .str "high" ∧
    normalizePriority (.str "whatever") = .none :=
  ⟨C6_normalize_priority_mapping.1 " P1 " (by decide),
   C6_normalize_priority_mapping.2.1 "Moderate" (by decide),
   C6_normalize_priority_mapping.2.2.2.1 "HIGH" (by decide),
   C6_normalize_priority_mapping.2.2.2.2.2 "whatever" (by decide) (by decide)
     (by decide) (by decide) (by decide)⟩

/-- C2 counterexample: on the record `{component: None, priority: "high"}`
the detector returns two `missing_field` anomalies (component at high and
maint_action at medium), not exactly one. -/
theorem C2_counterexample_two_missing_fields :
    detectAnomalies ⟨2026, 10, 12⟩ { emptyRec with priority := .str "high" } [] [] =
      [⟨"missing_field", "high", "Component identifier is required", "component",
        Option.none, "Review source document for component information"⟩,
       ⟨"missing_field", "medium", "Maintenance action should be described",
        "maint_action", Option.none,
        "Review source document for maint_action information"⟩] ∧
    ((detectAnomalies ⟨2026, 10, 12⟩ { emptyRec with priority := .str "high" } [] []).filter
      (fun a => a.anomaly_type == "missing_field")).length ≠ 1 := by
  constructor
  · rfl
  · decide

/-- C2 (amended): for every `today`, the record
`{component: None, priority: "high"}` yields exactly two `missing_field`
anomalies: component at severity high and maint_action at severity medium
(the first on component at high, as the claim says, but not the only one). -/
theorem C2_missing_field_anomalies (today : PDate) :
    detectAnomalies today { emptyRec with priority := .str "high" } [] [] =
      [⟨"missing_field", "high", "Component identifier is required", "component",
        Option.none, "Review source document for component information"⟩,
       ⟨"missing_field", "medium", "Maintenance action should be described",
        "maint_action", Option.none,
        "Review source document for maint_action information"⟩] := rfl

/-- C8: on a present cost the detector emits at most one cost anomaly:
negative → `invalid_value`/high; above 1,000,000 → `extreme_value`/high;
above 100,000 and at most 1,000,000 → `extreme_value`/medium; an
unparsable string → `parse_error`/low; and a negative numeric cost passes
through `normalize_cost` unchanged. -/
theorem C8_cost_anomaly_rules :
    (∀ q : Rat, q < 0 →
      checkCost { emptyRec with cost_estimate := .num q } =
        [⟨"invalid_value", "high", "Negative cost estimate: $" ++ formatMoney q,
          "cost_estimate", some (numToStr q), "Cost cannot be negative"⟩]) ∧
    (∀ q : Rat, q > 1000000 →
      checkCost { emptyRec with cost_estimate := .num q } =
        [⟨"extreme_value", "high", "Extremely high cost estimate: $" ++ formatMoney q,
          "cost_estimate", some (numToStr q), "Verify cost value or add justification"⟩]) ∧
    (∀ q : Rat, 100000 < q → q ≤ 1000000 →
      checkCost { emptyRec with cost_estimate := .num q } =
        [⟨"extreme_value", "medium", "High cost estimate: $" ++ formatMoney q,
          "cost_estimate", some (numToStr q), "Verify cost estimate is accurate"⟩]) ∧
    (∀ s : String, pyFloat s = Option.none →
      checkCost { emptyRec with cost_estimate := .str s } =
        [costParseErrorAnomaly s]) ∧
    (∀ r : Rec, (checkCost r).length ≤ 1) ∧
    (∀ q : Rat, q < 0 → normalizeCost (.num q) = .num q) := by
  have hthr : ∀ q : Rat, q < 0 → costThresholdAnomalies q =
      [⟨"invalid_value", "high", "Negative cost estimate: $" ++ formatMoney q,
        "cost_estimate", some (numToStr q), "Cost cannot be negative"⟩] := by
    intro q h
    unfold costThresholdAnomalies
    rw [if_pos h]
  refine ⟨?_, ?_, ?_, ?_, ?_, ?_⟩
  · intro q h
    show costThresholdAnomalies q = _
    exact hthr q h
  · intro q h
    show costThresholdAnomalies q = _
    unfold costThresholdAnomalies
    rw [if_neg (by push_neg; linarith), if_pos h]
  · intro q h1 h2
    show costThresholdAnomalies q = _
    unfold costThresholdAnomalies
    rw [if_neg (by push_neg; linarith), if_neg (by push_neg; exact h2), if_pos h1]
  · intro s h
    show (match pyFloat s with
      | some q => costThresholdAnomalies q
      | Option.none => [costParseErrorAnomaly s]) = _
    rw [h]
  · intro r
    have hq : ∀ q : Rat, (costThresholdAnomalies q).length ≤ 1 := by
      intro q
      unfold costThresholdAnomalies
      split_ifs <;> simp
    cases hc : r.cost_estimate with
    | none =>
      have : checkCost r = [] := by unfold checkCost; rw [hc]
      simp [this]
    | num q =>
      have : checkCost r = costThresholdAnomalies q := by unfold checkCost; rw [hc]
      rw [this]; exact hq q
    | str s =>
      cases hf : pyFloat s with
      | some q =>
        have : checkCost r = costThresholdAnomalies q := by
          unfold checkCost; rw [hc]
          show (match pyFloat s with
            | some q => costThresholdAnomalies q
            | Option.none => [costParseErrorAnomaly s]) = _
          rw [hf]
        rw [this]; exact hq q
      | none =>
        have : checkCost r = [costParseErrorAnomaly s] := by
          unfold checkCost; rw [hc]
          show (match pyFloat s with
            | some q => costThresholdAnomalies q
            | Option.none => [costParseErrorAnomaly s]) = _
          rw [hf]
        simp [this]
    | date d =>
      have : checkCost r = [costParseErrorAnomaly (isoDate d)] := by
        unfold checkCost; rw [hc]
      simp [this]
  · intro q _
    rfl

/-- C8 witness: the cost rules applied at concrete values. -/
theorem C8_cost_anomaly_rules_witness :
    checkCost { emptyRec with cost_estimate := .num (-500) } =
      [⟨"invalid_value", "high", "Negative cost estimate: $" ++ formatMoney (-500),
        "cost_estimate", some (numToStr (-500)), "Cost cannot be negative"⟩] ∧
    checkCost { emptyRec with cost_estimate := .num 2000000 } =
      [⟨"extreme_value", "high", "Extremely high cost estimate: $" ++ formatMoney 2000000,
        "cost_estimate", some (numToStr 2000000), "Verify cost value or add justification"⟩] ∧
    checkCost { emptyRec with cost_estimate := .num 500000 } =
      [⟨"extreme_value", "medium", "High cost estimate: $" ++ formatMoney 500000,
        "cost_estimate", some (numToStr 500000), "Verify cost estimate is accurate"⟩] ∧
    checkCost { emptyRec with cost_estimate := .str "N/A" } =
      [costParseErrorAnomaly "N/A"] ∧
    normalizeCost (.num (-500)) = .num (-500) :=
  ⟨C8_cost_anomaly_rules.1 (-500) (by decide),
   C8_cost_anomaly_rules.2.1 2000000 (by decide),
   C8_cost_anomaly_rules.2.2.1 500000 (by decide) (by decide),
   C8_cost_anomaly_rules.2.2.2.1 "N/A" (by decide),
   C8_cost_anomaly_rules.2.2.2.2.2 (-500) (by decide)⟩

/-- C1 counterexample: on the text `"Null maintenance"` with the AI path
yielding nothing, `extract_records` returns a regex-fallback record that the
validation stage would have dropped (`_validate_records` of it is empty),
and the pipeline normalizes and persists it with both component and
maint_action absent — the validation stage is not applied to the regex
path, and a normalized record with both fields absent is produced. -/
theorem C1_counterexample_regex_skips_validation :
    extractRecords Option.none "Null maintenance" =
      [{ emptyRec with component := .str "Null" }] ∧
    validateRecords [{ emptyRec with component := .str "Null" }] = [] ∧
    (normalizeRecord { emptyRec with component := .str "Null" }).component = .none ∧
    (normalizeRecord { emptyRec with component := .str "Null" }).maint_action = .none ∧
    (pipelineRecords Option.none "Null maintenance").map
      (fun p => (p.fields.component, p.fields.maint_action)) =
      [(.none, .none)] := by
  refine ⟨by decide, by decide, by decide, by decide, by decide⟩

/-- C1 (amended): the validation stage applies only to the AI-assisted
path — every record `_validate_records` returns has a cleaned component or
maintenance action present — while regex-fallback records are returned
without validation, each carrying at least one raw (possibly placeholder)
component or action string; after normalization both fields of a
regex-path record can be absent. -/
theorem C1_validation_on_ai_path :
    (∀ rs : List Rec, ∀ r ∈ validateRecords rs,
      r.component ≠ .none ∨ r.maint_action ≠ .none) ∧
    (∀ text : String, ∀ r ∈ regexExtract text,
      r.component ≠ .none ∨ r.maint_action ≠ .none) := by
  constructor
  · intro rs r hr
    obtain ⟨a, _, ha⟩ := List.mem_filterMap.mp hr
    by_cases hc : (truthy (cleanString a.component) ||
        truthy (cleanString a.maint_action)) = true
    · rw [if_pos hc] at ha
      rcases Bool.or_eq_true_iff.mp hc with h | h
      · left
        intro hn
        have := Option.some.inj ha
        rw [← this] at hn
        simp only at hn
        rw [hn] at h
        exact absurd h (by decide)
      · right
        intro hn
        have := Option.some.inj ha
        rw [← this] at hn
        simp only at hn
        rw [hn] at h
        exact absurd h (by decide)
    · rw [if_neg hc] at ha
      exact absurd ha (by simp)
  · intro text r hr
    unfold regexExtract at hr
    by_cases hg : ((scanAll matchComp1 (text.data.length + 1) text.data ++
        scanAll matchComp2 (text.data.length + 1) text.data).isEmpty &&
        (scanAll matchAct1 (text.data.length + 1) text.data ++
        scanAll matchAct2 (text.data.length + 1) text.data).isEmpty) = true
    · rw [if_pos hg] at hr
      simp at hr
    · rw [if_neg hg] at hr
      obtain ⟨i, hi, hfi⟩ := List.mem_map.mp hr
      rw [List.mem_range] at hi
      set comps := scanAll matchComp1 (text.data.length + 1) text.data ++
        scanAll matchComp2 (text.data.length + 1) text.data with hcomps
      set acts := scanAll matchAct1 (text.data.length + 1) text.data ++
        scanAll matchAct2 (text.data.length + 1) text.data with hacts
      have hcount : i < max (max comps.length acts.length) 1 :=
        lt_of_lt_of_le hi (min_le_left _ _)
      have hne : 0 < comps.length ∨ 0 < acts.length := by
        by_contra hcon
        push_neg at hcon
        apply hg
        have h1 : comps = [] := List.length_eq_zero.mp (Nat.le_zero.mp hcon.1)
        have h2 : acts = [] := List.length_eq_zero.mp (Nat.le_zero.mp hcon.2)
        rw [h1, h2]
        rfl
      have hor : i < comps.length ∨ i < acts.length := by
        rcases lt_max_iff.mp hcount with h | h1
        · exact lt_max_iff.mp h
        · have hi0 : i = 0 := Nat.lt_one_iff.mp h1
          rcases hne with h | h
          · exact Or.inl (hi0 ▸ h)
          · exact Or.inr (hi0 ▸ h)
      rcases hor with h | h
      · left
        rw [← hfi]
        show (match comps[i]? with
          | some g => Value.str ⟨g⟩
          | Option.none => Value.none) ≠ Value.none
        rw [List.getElem?_eq_getElem h]
        simp
      · right
        rw [← hfi]
        show (match acts[i]? with
          | some g => Value.str ⟨g⟩
          | Option.none => Value.none) ≠ Value.none
        rw [List.getElem?_eq_getElem h]
        simp

/-- C1 witness: the amended theorem at concrete inputs. -/
theorem C1_validation_on_ai_path_witness :
    (({ emptyRec with component := .str "Pump" } : Rec).component ≠ .none ∨
      ({ emptyRec with component := .str "Pump" } : Rec).maint_action ≠ .none) ∧
    (({ emptyRec with component := .str "Null" } : Rec).component ≠ .none ∨
      ({ emptyRec with component := .str "Null" } : Rec).maint_action ≠ .none) :=
  ⟨C1_validation_on_ai_path.1 [{ emptyRec with component := .str "Pump" }] _ (by decide),
   C1_validation_on_ai_path.2 "Null maintenance" _ (by decide)⟩

/-- C3: the persistence loop tags records with
`extraction_method='llm' if records_data else 'regex'`, where
`records_data` is the combined extraction output — so on the text
`"Pump repair"` with the AI path yielding nothing, the record demonstrably
comes from the regex fallback, yet it is persisted tagged `"llm"`; the
`'regex'` literal is unreachable (it would require an empty `records_data`,
in which case the loop body never runs). -/
theorem C3_extraction_method_mislabels_regex_path :
    extractRecords Option.none "Pump repair" = regexExtract "Pump repair" ∧
    regexExtract "Pump repair" = [{ emptyRec with component := .str "Pump" }] ∧
    (pipelineRecords Option.none "Pump repair").map
      (fun p => p.extraction_method) = ["llm"] := by
  refine ⟨rfl, by decide, by decide⟩

/-- C4: when the AI-assisted path yields no result (`None`) or an empty
list, `extract_records` equals the regex fallback extractor applied alone
to the same text. -/
theorem C4_empty_ai_result_falls_back_to_regex (text : String)
    (llm : Option (List Rec)) (h : llm = Option.none ∨ llm = some []) :
    extractRecords llm text = regexExtract text := by
  rcases h with rfl | rfl
  · rfl
  · rfl

/-- C4 witness. -/
theorem C4_empty_ai_result_falls_back_to_regex_witness :
    extractRecords (some []) "Pump repair" = regexExtract "Pump repair" :=
  C4_empty_ai_result_falls_back_to_regex "Pump repair" (some []) (Or.inr rfl)

/-- An example object text for the JSON parser, built characterwise. -/
def jObjText : String := ⟨[lbrace, '"', 'a', '"', ':', ' ', '1', rbrace]⟩

/-- C5: the three-stage JSON response parser tries (i) the whole response,
(ii) the fenced code block, (iii) the first bracketed span, short-circuits
on the first success, coerces a bare JSON object into a singleton list, and
returns `None` (not an error) when no stage succeeds. -/
theorem C5_parse_json_response_stages (text : String) :
    (∀ l, jloads text = some (.arr l) → parseJsonResponse text = some l) ∧
    (∀ o, jloads text = some (.obj o) → parseJsonResponse text = some [JVal.obj o]) ∧
    (jStage1 text = Option.none → ∀ r, jStage2 text = some r →
      parseJsonResponse text = some r) ∧
    (jStage1 text = Option.none → jStage2 text = Option.none →
      parseJsonResponse text = jStage3 text) ∧
    (jStage1 text = Option.none → jStage2 text = Option.none →
      jStage3 text = Option.none → parseJsonResponse text = Option.none) ∧
    (∀ c o, jStage1 text = Option.none → extractFenced text = some c →
      jloads c = some (.obj o) → parseJsonResponse text = some [JVal.obj o]) := by
  have hp1 : ∀ r, jStage1 text = some r → parseJsonResponse text = some r := by
    intro r h
    unfold parseJsonResponse
    rw [h]
  have hp2 : jStage1 text = Option.none → ∀ r, jStage2 text = some r →
      parseJsonResponse text = some r := by
    intro h1 r h2
    unfold parseJsonResponse
    rw [h1, h2]
  have hp3 : jStage1 text = Option.none → jStage2 text = Option.none →
      parseJsonResponse text = jStage3 text := by
    intro h1 h2
    unfold parseJsonResponse
    rw [h1, h2]
  refine ⟨?_, ?_, hp2, hp3, ?_, ?_⟩
  · intro l h
    exact hp1 l (by unfold jStage1; rw [h])
  · intro o h
    exact hp1 _ (by unfold jStage1; rw [h])
  · intro h1 h2 h3
    rw [hp3 h1 h2, h3]
  · intro c o h1 hf hc
    refine hp2 h1 _ ?_
    unfold jStage2
    rw [hf]
    show (match jloads c with
      | some (.arr l) => some l
      | some (.obj o) => some [JVal.obj o]
      | _ => Option.none) = some [JVal.obj o]
    rw [hc]

/-- C5 witness: the staged parser at concrete responses. -/
theorem C5_parse_json_response_stages_witness :
    parseJsonResponse "[1, 2]" = some [.num 1, .num 2] ∧
    parseJsonResponse jObjText = some [.obj [("a", .num 1)]] ∧
    parseJsonResponse "```json\n[true]\n```" = some [.bool true] ∧
    parseJsonResponse "x [1, 2]" = some [.num 1, .num 2] ∧
    parseJsonResponse "garbage" = Option.none :=
  ⟨(C5_parse_json_response_stages "[1, 2]").1 _ rfl,
   (C5_parse_json_response_stages jObjText).2.1 _ rfl,
   (C5_parse_json_response_stages "```json\n[true]\n```").2.2.1 rfl _ rfl,
   Eq.trans ((C5_parse_json_response_stages "x [1, 2]").2.2.2.1 rfl rfl) rfl,
   (C5_parse_json_response_stages "garbage").2.2.2.2.1 rfl rfl rfl⟩

/-- Rows rendered with their 1-based indices (the spec-side description of
the row section). -/
def numberRows (cols : List String) :
    List (List (Option String)) → Nat → List String
  | [], _ => []
  | r :: rs, idx =>
    ("Row " ++ toString (idx + 1) ++ ": " ++ renderRow cols r) ::
      numberRows cols rs (idx + 1)

/-- Modelled from the spec (§4.1, amended): a header line listing column
names, a row count line, a blank line, then up to 100 rows rendered as
`"col: value | col: value"` with null cells skipped, and the single
summary line `"... and N more rows"` with `N = rows − 100` exactly when
the table has **at least** 100 rows (the claim's "more than 100" is what
the counterexample refutes). -/
def specTextRepAmended (df : DFrame) : List String :=
  ["Columns: " ++ String.intercalate ", " df.cols,
   "Total rows: " ++ toString df.rows.length, ""] ++
  numberRows df.cols (df.rows.take 100) 0 ++
  (if 100 ≤ df.rows.length then
    ["... and " ++ toString (df.rows.length - 100) ++ " more rows"]
  else [])

theorem rowsLoop_nil (cols : List String) (idx n : Nat) :
    rowsLoop cols [] idx n = [] := rfl

theorem rowsLoop_cons (cols : List String) (r : List (Option String))
    (rs : List (List (Option String))) (idx n : Nat) :
    rowsLoop cols (r :: rs) idx n =
      (if idx ≥ 99 then
        ["Row " ++ toString (idx + 1) ++ ": " ++ renderRow cols r,
         "... and " ++ toString (n - 100) ++ " more rows"]
      else ("Row " ++ toString (idx + 1) ++ ": " ++ renderRow cols r) ::
        rowsLoop cols rs (idx + 1) n) := rfl

theorem numberRows_nil (cols : List String) (idx : Nat) :
    numberRows cols [] idx = [] := rfl

theorem numberRows_cons (cols : List String) (r : List (Option String))
    (rs : List (List (Option String))) (idx : Nat) :
    numberRows cols (r :: rs) idx =
      ("Row " ++ toString (idx + 1) ++ ": " ++ renderRow cols r) ::
        numberRows cols rs (idx + 1) := rfl

/-- The row loop, characterised against the take/number/summary form. -/
theorem rowsLoop_spec (cols : List String) (rows : List (List (Option String))) :
    ∀ (idx n : Nat), idx ≤ 99 →
    rowsLoop cols rows idx n =
      numberRows cols (rows.take (100 - idx)) idx ++
      (if 100 ≤ idx + rows.length then
        ["... and " ++ toString (n - 100) ++ " more rows"]
      else []) := by
  induction rows with
  | nil =>
    intro idx n hidx
    rw [rowsLoop_nil, List.take_nil, numberRows_nil, if_neg (by simp; omega)]
    rfl
  | cons r rs ih =>
    intro idx n hidx
    rw [rowsLoop_cons]
    by_cases h99 : idx ≥ 99
    · have hidx99 : idx = 99 := le_antisymm hidx h99
      subst hidx99
      rw [if_pos (by omega)]
      have htake : (r :: rs).take (100 - 99) = [r] := rfl
      rw [htake, numberRows_cons, numberRows_nil, if_pos (by simp; omega)]
      rfl
    · rw [if_neg h99, ih (idx + 1) n (by omega)]
      have htake : (r :: rs).take (100 - idx) = r :: rs.take (100 - (idx + 1)) := by
        have h : 100 - idx = (100 - (idx + 1)) + 1 := by omega
        rw [h, List.take_succ_cons]
      rw [htake, numberRows_cons]
      have hcond : (100 ≤ idx + 1 + rs.length) ↔ (100 ≤ idx + (r :: rs).length) := by
        simp only [List.length_cons]
        omega
      rw [if_congr hcond rfl rfl, List.cons_append]

set_option maxRecDepth 4096 in
/-- C7 counterexample: a table with exactly 100 rows (not more than 100)
still emits the summary line, as `"... and 0 more rows"`. -/
theorem C7_counterexample_summary_at_exactly_100 :
    (⟨["c"], List.replicate 100 [some "x"]⟩ : DFrame).rows.length = 100 ∧
    "... and 0 more rows" ∈
      textRepLines ⟨["c"], List.replicate 100 [some "x"]⟩ := by
  constructor
  · simp
  · decide

/-- C7 (amended): the text representation is the header line, the row
count, a blank line, the first (up to) 100 rows rendered with null cells
skipped, and the summary line `"... and N more rows"` (N = rows − 100)
exactly when the table has at least 100 rows. -/
theorem C7_text_representation_shape (df : DFrame) :
    textRepLines df = specTextRepAmended df := by
  unfold textRepLines specTextRepAmended
  rw [rowsLoop_spec df.cols df.rows 0 df.rows.length (by omega)]
  simp only [Nat.sub_zero, Nat.zero_add, List.append_assoc]

/-- The legacy `_parse_cost` never raises: every exception of its body is
caught and turned into `None`. -/
theorem legacyParseCostE_total (v : Option String) :
    ∃ r, legacyParseCostE v = Except.ok r := by
  unfold legacyParseCostE
  by_cases hf : falsyS v = true
  · rw [if_pos hf]
    exact ⟨Option.none, rfl⟩
  · rw [if_neg hf]
    cases hp : pyFloat (legacyCleanCost (v.getD "")) with
    | some q => exact ⟨some q, rfl⟩
    | none => exact ⟨Option.none, rfl⟩

/-- Every cost issue of the legacy validator is an `extreme_value`. -/
theorem legacyCostIssues_types (cost : Option String) :
    ∀ i ∈ legacyCostIssues cost, i.type = "extreme_value" := by
  intro i hi
  unfold legacyCostIssues at hi
  by_cases hf : falsyS cost = true
  · rw [if_pos hf] at hi
    simp at hi
  · rw [if_neg hf] at hi
    obtain ⟨r, hr⟩ := legacyParseCostE_total cost
    rw [hr] at hi
    cases r with
    | none => simp at hi
    | some q =>
      replace hi : i ∈ (if (decide (q ≠ 0) && decide (q > 1000000)) = true then
          [({ type := "extreme_value", severity := "medium",
              field := "cost_estimate",
              description := "Unusually high cost estimate: $" ++ formatMoney q,
              fix := "Verify cost value is correct" } : LegacyIssue)]
        else []) := hi
      by_cases hq : (decide (q ≠ 0) && decide (q > 1000000)) = true
      · rw [if_pos hq] at hi
        have := List.mem_singleton.mp hi
        rw [this]
      · rw [if_neg hq] at hi
        simp at hi

/-- C10: in the legacy row validator the `parse_error` branch for cost is
unreachable — `_parse_cost` is total (`Except.ok` on every input, `None`
rather than raising on unparsable text), so no issue the validator emits
is a `parse_error`, and an unparsable cost value yields no cost issue at
all. -/
theorem C10_legacy_cost_parse_error_unreachable :
    (∀ v : Option String, ∃ r, legacyParseCostE v = Except.ok r) ∧
    (∀ data : LegacyData, ∀ i ∈ legacyValidateRecord data,
      i.type ≠ "parse_error") ∧
    (∀ s : String, pyFloat (legacyCleanCost s) = Option.none →
      legacyCostIssues (some s) = []) := by
  refine ⟨legacyParseCostE_total, ?_, ?_⟩
  · intro data i hi
    unfold legacyValidateRecord at hi
    rcases List.mem_append.mp hi with h123 | h4
    case inr =>
      have := legacyCostIssues_types data.cost_estimate i h4
      rw [this]
      decide
    rcases List.mem_append.mp h123 with h12 | h3
    case inr =>
      by_cases hc : (!falsyS data.start_date && !falsyS data.end_date) = true
      · rw [if_pos hc] at h3
        cases hs : legacyParseDate data.start_date with
        | none =>
          rw [hs] at h3
          replace h3 : i ∈ ([] : List LegacyIssue) := h3
          simp at h3
        | some sd =>
          rw [hs] at h3
          cases he : legacyParseDate data.end_date with
          | none =>
            rw [he] at h3
            replace h3 : i ∈ ([] : List LegacyIssue) := h3
            simp at h3
          | some ed =>
            rw [he] at h3
            replace h3 : i ∈ (if dateOrdinal sd > dateOrdinal ed then
                [({ type := "date_inconsistency", severity := "high",
                    field := "start_date,end_date",
                    description := "Start date (" ++ data.start_date.getD "" ++
                      ") is after end date (" ++ data.end_date.getD "" ++ ")",
                    fix := "Verify and correct date sequence" } : LegacyIssue)]
              else []) := h3
            by_cases hgt : dateOrdinal sd > dateOrdinal ed
            · rw [if_pos hgt] at h3
              have := List.mem_singleton.mp h3
              rw [this]
              show ("date_inconsistency" : String) ≠ "parse_error"
              decide
            · rw [if_neg hgt] at h3
              simp at h3
      · rw [if_neg hc] at h3
        simp at h3
    rcases List.mem_append.mp h12 with h1 | h2
    · by_cases hc : falsyS data.component = true
      · rw [if_pos hc] at h1
        have := List.mem_singleton.mp h1
        rw [this]
        decide
      · rw [if_neg hc] at h1
        simp at h1
    · by_cases hc : falsyS data.priority = true
      · rw [if_pos hc] at h2
        have := List.mem_singleton.mp h2
        rw [this]
        decide
      · rw [if_neg hc] at h2
        simp at h2
  · intro s hp
    unfold legacyCostIssues
    by_cases hf : falsyS (some s) = true
    · rw [if_pos hf]
    · rw [if_neg hf]
      have : legacyParseCostE (some s) = Except.ok Option.none := by
        unfold legacyParseCostE
        rw [if_neg hf]
        show (match (match pyFloat (legacyCleanCost ((some s).getD "")) with
          | some q => Except.ok q
          | Option.none => Except.error PyErr.valueError : Except PyErr Rat) with
          | Except.ok q => Except.ok (some q)
          | Except.error _ => Except.ok Option.none) = _
        rw [show (some s).getD "" = s from rfl, hp]
      rw [this]

/-- C10 witness: the unreachability theorem at a concrete legacy row. -/
theorem C10_legacy_cost_parse_error_unreachable_witness :
    legacyCostIssues (some "12x34abc") = [] ∧
    (⟨"missing_field", "high", "component", "Missing component/part identifier",
      "Review source document for component name"⟩ : LegacyIssue).type ≠
      "parse_error" :=
  ⟨C10_legacy_cost_parse_error_unreachable.2.2 "12x34abc" (by decide),
   C10_legacy_cost_parse_error_unreachable.2.1
     ⟨Option.none, some "1", Option.none, Option.none, some "12x34abc"⟩ _ (by decide)⟩

end Maint
